import Mathlib

/-!
Verification of `chat_message_system.js`.

A shallow embedding of the request handlers of the chat messaging backend
(`src/chat_message_system.js`) and proofs about them.

Conventions of the embedding:

* `users.json` is a `Registry` (a list of `User`), `messages.json` is a `Ledger`
  (a list of `LedgerRecord`).  A handler is a function from the file contents
  to its response and the file contents it leaves behind.
* `uuidv4()` and `new Date().toISOString()` are taken as extra arguments.
* A request field that the handler tests for truthiness is an `Option String`
  (`none` is a missing field); `truthy` is JavaScript truthiness of such a value.
* The registry handlers compare `username` and `password` with `===` only; those
  fields are embedded as strings.  Requests with missing fields to `/signup` and
  `/friend-request` are embedded separately (`rawSignup`, `rawSendFriendRequest`).
-/

set_option autoImplicit false

namespace ChatMessageSystem

/-! ## Data model -/

/-- A record of `users.json`. -/
structure User where
  id : String
  username : String
  password : String
  friends : List String
  profileImage : Option String := none
  status : Option String := none
deriving DecidableEq, Repr

/-- The contents of `users.json`. -/
abbrev Registry := List User

/-- The failure kinds of the handlers: `res.status(4xx).send(...)`. -/
inductive Failure where
  /-- Status 400 with a "missing / required" message. -/
  | validation
  /-- Status 400 'Username already exists' or 'Already friends'. -/
  | conflict
  /-- Status 400 or 404 'User not found'. -/
  | notFound
  /-- Status 400 'Invalid username or password' or 401 'Invalid current password'. -/
  | auth
deriving DecidableEq, Repr

/-- What a handler sends back: a failure or a success value. -/
inductive Response (α : Type) where
  | fail (e : Failure)
  | ok (value : α)
deriving DecidableEq, Repr

/-! ## User and friendship registry -/

/-- The record pushed by `/signup`. -/
def newUser (id username password : String) : User :=
  { id := id, username := username, password := password, friends := [] }

/-- Handler `app.post('/signup')`: the response and the registry left on disk. -/
def signup (users : Registry) (username password newId : String) :
    Response Unit × Registry :=
  if (users.find? (fun user => user.username == username)).isSome then
    (.fail .conflict, users)
  else
    (.ok (), users ++ [newUser newId username password])

/-- The `users.forEach` loop of `/login`.  `selfIdx` is the position of the object
`user` in `users`, `j` the position of `otherUser`; `friends` is the current
content of `user.friends` (mutated in place by the loop) and `needsSave` the flag.
At `j = selfIdx` the object `otherUser` is `user` itself, so its friend list is
the current `friends`. -/
def repairLoop (username : String) (selfIdx : Nat) :
    Nat → List User → List String → Bool → List String × Bool
  | _, [], friends, needsSave => (friends, needsSave)
  | j, otherUser :: rest, friends, needsSave =>
    let otherFriends := if j = selfIdx then friends else otherUser.friends
    if otherFriends.contains username && !friends.contains otherUser.username then
      repairLoop username selfIdx (j + 1) rest (friends ++ [otherUser.username]) true
    else
      repairLoop username selfIdx (j + 1) rest friends needsSave

/-- The test of one round of `repairLoop`, as a proposition: `otherUser.friends`
includes `username` and `user.friends` does not include `otherUser.username`. -/
def RepairFires (u : String) (i j : Nat) (x : User) (fr : List String) : Prop :=
  u ∈ (if j = i then fr else x.friends) ∧ x.username ∉ fr

/-- The result of `/login`. -/
structure LoginResult where
  /-- The response: `{ id, username }` on success. -/
  response : Response (String × String)
  /-- The final value of `needsSave`: whether `saveUsers` ran. -/
  needsSave : Bool
  /-- The contents of `users.json` after the request. -/
  registry : Registry
deriving DecidableEq, Repr

/-- The predicate of the `users.find` of `/login`. -/
def matchesCredentials (username password : String) (user : User) : Bool :=
  user.username == username && user.password == password

/-- Handler `app.post('/login')`. -/
def login (users : Registry) (username password : String) : LoginResult :=
  match users.find? (matchesCredentials username password) with
  | some user =>
    let selfIdx := users.findIdx (matchesCredentials username password)
    let r := repairLoop username selfIdx 0 users user.friends false
    let mutated := users.set selfIdx { user with friends := r.1 }
    { response := .ok (user.id, user.username)
      needsSave := r.2
      registry := if r.2 then mutated else users }
  | none => { response := .fail .auth, needsSave := false, registry := users }

/-- `x.friends.push(name)` on a user object. -/
def pushFriend (name : String) (user : User) : User :=
  { user with friends := user.friends ++ [name] }

/-- Handler `app.post('/friend-request')`. -/
def sendFriendRequest (users : Registry) (fromUsername toUsername : String) :
    Response Unit × Registry :=
  match users.find? (fun user => user.username == fromUsername),
        users.find? (fun user => user.username == toUsername) with
  | some _, some toUser =>
    if toUser.friends.contains fromUsername then
      (.fail .conflict, users)
    else
      let fromIdx := users.findIdx (fun user => user.username == fromUsername)
      let toIdx := users.findIdx (fun user => user.username == toUsername)
      let afterTo := users.modify (pushFriend fromUsername) toIdx
      (.ok (), afterTo.modify (pushFriend toUsername) fromIdx)
  | _, _ => (.fail .notFound, users)

/-- What the two pushes of `/friend-request` do to a record when usernames are
pairwise distinct: the user named `toUsername` gets `fromUsername`, then the user named
`fromUsername` gets `toUsername`. -/
def afterRequest (fromUsername toUsername : String) (x : User) : User :=
  let y := if x.username = toUsername then pushFriend fromUsername x else x
  if y.username = fromUsername then pushFriend toUsername y else y

/-- Handler `app.post('/change-password')`. -/
def changePassword (users : Registry) (userId oldPassword newPassword : String) :
    Response Unit × Registry :=
  match users.find? (fun u => u.id == userId) with
  | none => (.fail .notFound, users)
  | some user =>
    if user.password != oldPassword then
      (.fail .auth, users)
    else
      (.ok (), users.modify (fun u => { u with password := newPassword })
        (users.findIdx (fun u => u.id == userId)))

/-- An element of the `/friends` response. -/
structure FriendView where
  username : String
  profileImage : String
  status : String
deriving DecidableEq, Repr

/-- JavaScript `value || fallback` on a field that is a string when present:
`undefined` and `""` give the fallback. -/
def orDefault (value : Option String) (fallback : String) : String :=
  match value with
  | some s => if s != "" then s else fallback
  | none => fallback

/-- The view of one friend in `/friends`: `users.find(...) || {}` looked up by name,
then the two defaults. -/
def friendView (users : Registry) (friendName : String) : FriendView :=
  let friend := users.find? (fun u => u.username == friendName)
  { username := friendName
    profileImage := orDefault (friend.bind (fun x => x.profileImage)) "/images/default.png"
    status := orDefault (friend.bind (fun x => x.status)) "online" }

/-- Handler `app.get('/friends')`. -/
def listFriends (users : Registry) (username : Option String) : Response (List FriendView) :=
  match username with
  | none => .fail .validation
  | some name =>
    if name == "" then
      .fail .validation
    else
      match users.find? (fun u => u.username == name) with
      | none => .fail .notFound
      | some user => .ok (user.friends.map (friendView users))

/-- One request to the registry handlers in which every field is present and a string
(the requests the typed handlers above embed; `RawOp` below allows missing fields). -/
inductive RegistryOp where
  | signup (username password newId : String)
  | login (username password : String)
  | sendFriendRequest (fromUsername toUsername : String)
  | changePassword (userId oldPassword newPassword : String)
deriving DecidableEq, Repr

/-- The registry left on disk by one request. -/
def applyOp (users : Registry) : RegistryOp → Registry
  | .signup u p i => (signup users u p i).2
  | .login u p => (login users u p).registry
  | .sendFriendRequest f t => (sendFriendRequest users f t).2
  | .changePassword i o n => (changePassword users i o n).2

/-- The registry after a sequence of requests, starting from the empty `users.json`. -/
def runOps (ops : List RegistryOp) : Registry :=
  ops.foldl applyOp []

/-- The invariant of reachable registries: usernames are pairwise distinct, every name
in a friend list is the username of a user, and listing is mutual. -/
def RegistryInvariant (users : Registry) : Prop :=
  (users.map (fun x => x.username)).Nodup ∧
  (∀ A ∈ users, ∀ n ∈ A.friends, ∃ B ∈ users, B.username = n) ∧
  (∀ A ∈ users, ∀ B ∈ users, B.username ∈ A.friends ↔ A.username ∈ B.friends)

/-! ### Requests with missing fields

`/signup` and `/friend-request` do not check that their fields are present.  A missing
field is `undefined`; `saveUsers` (`JSON.stringify`) drops a key whose value is
`undefined` and writes an `undefined` array element as `null`.  The definitions below
embed those two handlers for requests whose fields are strings or missing. -/

/-- An entry of a stored `friends` array: a string, or `null` where `undefined` was
pushed before the save. -/
inductive FriendEntry where
  | null
  | name (s : String)
deriving DecidableEq, Repr

/-- A record of `users.json` whose `username` and `password` keys may be absent
(`none`). -/
structure RawUser where
  id : String
  username : Option String
  password : Option String
  friends : List FriendEntry
  profileImage : Option String := none
  status : Option String := none
deriving DecidableEq, Repr

/-- The entry that `friends.push(field)` leaves on disk. -/
def pushedEntry : Option String → FriendEntry
  | none => .null
  | some s => .name s

/-- `friends.includes(field)` on an array loaded from disk: such an array holds strings
and `null`, so it never includes `undefined`. -/
def rawIncludes (friends : List FriendEntry) : Option String → Bool
  | none => false
  | some s => friends.contains (.name s)

/-- Handler `app.post('/signup')` for a request whose fields may be missing. -/
def rawSignup (users : List RawUser) (username password : Option String) (newId : String) :
    Response Unit × List RawUser :=
  if (users.find? (fun user => user.username == username)).isSome then
    (.fail .conflict, users)
  else
    (.ok (), users ++ [{ id := newId, username := username, password := password,
                         friends := [] }])

/-- `x.friends.push(field)` on a user object, as saved. -/
def rawPushFriend (field : Option String) (user : RawUser) : RawUser :=
  { user with friends := user.friends ++ [pushedEntry field] }

/-- Handler `app.post('/friend-request')` for a request whose fields may be missing. -/
def rawSendFriendRequest (users : List RawUser) (fromUsername toUsername : Option String) :
    Response Unit × List RawUser :=
  match users.find? (fun user => user.username == fromUsername),
        users.find? (fun user => user.username == toUsername) with
  | some _, some toUser =>
    if rawIncludes toUser.friends fromUsername then
      (.fail .conflict, users)
    else
      let fromIdx := users.findIdx (fun user => user.username == fromUsername)
      let toIdx := users.findIdx (fun user => user.username == toUsername)
      let afterTo := users.modify (rawPushFriend fromUsername) toIdx
      (.ok (), afterTo.modify (rawPushFriend toUsername) fromIdx)
  | _, _ => (.fail .notFound, users)

/-- A signup or friend request whose fields may be missing. -/
inductive RawOp where
  | signup (username password : Option String) (newId : String)
  | sendFriendRequest (fromUsername toUsername : Option String)
deriving DecidableEq, Repr

/-- The registry left on disk by one such request. -/
def rawApplyOp (users : List RawUser) : RawOp → List RawUser
  | .signup u p i => (rawSignup users u p i).2
  | .sendFriendRequest f t => (rawSendFriendRequest users f t).2

/-- The registry after a sequence of such requests, starting from the empty
`users.json`. -/
def rawRunOps (ops : List RawOp) : List RawUser :=
  ops.foldl rawApplyOp []

/-- The invariant of `RegistryInvariant` read on records with optional keys: usernames
are pairwise distinct, every friend entry is the username of a user, and listing is
mutual. -/
def RawRegistryInvariant (users : List RawUser) : Prop :=
  (users.map (fun x => x.username)).Nodup ∧
  (∀ A ∈ users, ∀ e ∈ A.friends, ∃ B ∈ users, ∃ s, B.username = some s ∧ e = .name s) ∧
  (∀ A ∈ users, ∀ B ∈ users,
    rawIncludes A.friends B.username = true ↔ rawIncludes B.friends A.username = true)

/-- A typed record as a record with optional keys. -/
def toRawUser (x : User) : RawUser :=
  { id := x.id, username := some x.username, password := some x.password,
    friends := x.friends.map FriendEntry.name, profileImage := x.profileImage,
    status := x.status }

/-! ## Conversation and message ledger -/

/-- JavaScript truthiness of a request or record field that is a string when
present: `undefined` and `""` are falsy. -/
def truthy : Option String → Bool
  | some s => s != ""
  | none => false

/-- An entry of `messages.json`.  The handlers read the entries as plain objects
and test fields that an entry may lack, so every field is optional. -/
structure LedgerRecord where
  id : Option String := none
  fromUsername : Option String := none
  toUsername : Option String := none
  conversationId : Option String := none
  message : Option String := none
  fileUrl : Option String := none
  conversationName : Option String := none
  type : Option String := none
  creator : Option String := none
  participants : Option (List String) := none
  timestamp : Option String := none
deriving DecidableEq, Repr

/-- The contents of `messages.json`. -/
abbrev Ledger := List LedgerRecord

/-- The object `newMessage` of `/message`. -/
def newMessage (id : String) (fromUsername conversationId message : Option String)
    (timestamp : String) : LedgerRecord :=
  { id := some id, fromUsername := fromUsername, conversationId := conversationId,
    message := message, timestamp := some timestamp, type := some "message" }

/-- Handler `app.post('/message')`. -/
def postMessage (messages : Ledger) (fromUsername conversationId message : Option String)
    (newId timestamp : String) : Response LedgerRecord × Ledger :=
  if !truthy fromUsername || !truthy conversationId || !truthy message then
    (.fail .validation, messages)
  else
    let m := newMessage newId fromUsername conversationId message timestamp
    (.ok m, messages ++ [m])

/-- The object `fileMessage` of `/upload`. -/
def newFileMessage (id : String) (fromUsername toUsername conversationId : Option String)
    (fileUrl timestamp : String) : LedgerRecord :=
  { id := some id, fromUsername := fromUsername, toUsername := toUsername,
    conversationId := conversationId, fileUrl := some fileUrl, timestamp := some timestamp }

/-- Handler `app.post('/upload')`: the check of `conversationId`, then (after the file
was stored) the lookup of both users and the check of `req.file`.  `file` is
`req.file.filename` when a file was stored; `pathJoin` stands for `path.join`.  The
response carries the stored file. -/
def postFileMessage (pathJoin : String → String → String) (users : Registry)
    (messages : Ledger) (conversationId fromUsername toUsername file : Option String)
    (newId timestamp : String) : Response String × Ledger :=
  match conversationId with
  | none => (.fail .validation, messages)
  | some c =>
    if c == "" then
      (.fail .validation, messages)
    else
      match users.find? (fun user => some user.username == fromUsername),
            users.find? (fun user => some user.username == toUsername) with
      | some _, some _ =>
        match file with
        | none => (.fail .validation, messages)
        | some filename =>
          (.ok filename, messages ++ [newFileMessage newId fromUsername toUsername
            conversationId (pathJoin c filename) timestamp])
      | _, _ => (.fail .notFound, messages)

/-- The object `newChat` of `/new-chat`. -/
def newChat (conversationId : String) (conversationName : Option String)
    (timestamp : String) : LedgerRecord :=
  { id := some conversationId, conversationName := conversationName,
    type := some "chat", timestamp := some timestamp }

/-- Handler `app.post('/new-chat')`; the response carries
`{ conversationId, conversationName }`. -/
def createBroadcastChat (messages : Ledger) (conversationName : Option String)
    (conversationId timestamp : String) : Response (String × Option String) × Ledger :=
  if !truthy conversationName then
    (.fail .validation, messages)
  else
    (.ok (conversationId, conversationName),
      messages ++ [newChat conversationId conversationName timestamp])

/-- Handler `app.delete('/delete-chat')` (the ledger part; the removal of the
upload folder is not modelled). -/
def deleteConversation (messages : Ledger) (conversationId : Option String) :
    Response Unit × Ledger :=
  if !truthy conversationId then
    (.fail .validation, messages)
  else
    (.ok (), messages.filter (fun msg =>
      msg.conversationId != conversationId && msg.id != conversationId))

/-- Handler `app.get('/messages')`. -/
def listConversationMessages (messages : Ledger) (conversationId : Option String) :
    Response Ledger :=
  if !truthy conversationId then
    .fail .validation
  else
    .ok (messages.filter (fun msg =>
      let isConversationMessage := msg.conversationId == conversationId
      let isFileMessage := truthy msg.fileUrl && msg.conversationId == conversationId
      let isChatMessage := msg.id == conversationId
      isConversationMessage || isFileMessage || isChatMessage))

/-- The body `{ yourChats, friendChats }` of the `/user-chats` response. -/
structure UserChats where
  yourChats : Ledger
  friendChats : Ledger
deriving DecidableEq, Repr

/-- The filter predicate of `/user-chats` (`isParticipant || isCreator || isPublic`). -/
def isVisibleTo (userId : String) (chat : LedgerRecord) : Bool :=
  let isParticipant :=
    match chat.participants with
    | some ps => ps.contains userId
    | none => false
  let isCreator := chat.creator == some userId
  let isPublic := chat.type == some "chat"
  isParticipant || isCreator || isPublic

/-- Handler `app.get('/user-chats')`. -/
def listUserConversations (messages : Ledger) (userId : Option String) :
    Response UserChats :=
  match userId with
  | none => .fail .validation
  | some u =>
    if u == "" then
      .fail .validation
    else
      let userChats := messages.filter (isVisibleTo u)
      .ok { yourChats := userChats.filter (fun chat => chat.creator == some u)
            friendChats := userChats.filter (fun chat => chat.creator != some u) }

/-- `s.split(" ")` on the characters of a string: the pieces between
consecutive spaces (a piece may be empty). -/
def splitOnSpace : List Char → List (List Char)
  | [] => [[]]
  | c :: cs =>
    if c = ' ' then
      [] :: splitOnSpace cs
    else
      match splitOnSpace cs with
      | [] => [[c]]
      | piece :: pieces => (c :: piece) :: pieces

/-- `initialMessage.split(" ").slice(0, 2).join(" ")`. -/
def splitSliceJoin (initialMessage : String) : String :=
  String.mk ([' '].intercalate ((splitOnSpace initialMessage.toList).take 2))

/-- The value of `convName` in `/create-friend-chat`. -/
def friendChatName (conversationName initialMessage : Option String) : Option String :=
  if !truthy conversationName then
    if truthy initialMessage then
      initialMessage.map splitSliceJoin
    else
      some "Friend Chat"
  else
    conversationName

/-- The object `friendChat` of `/create-friend-chat`. -/
def newFriendChat (conversationId : String) (convName : Option String)
    (fromUserId toUserId : String) (timestamp : String) : LedgerRecord :=
  { id := some conversationId, conversationName := convName, type := some "friend-chat",
    creator := some fromUserId, participants := some [fromUserId, toUserId],
    timestamp := some timestamp }

/-- Handler `app.post('/create-friend-chat')`. -/
def createFriendChat (messages : Ledger) (fromUserId toUserId : Option String)
    (initialMessage conversationName : Option String) (conversationId timestamp : String) :
    Response LedgerRecord × Ledger :=
  match fromUserId, toUserId with
  | some f, some t =>
    if f == "" || t == "" then
      (.fail .validation, messages)
    else
      let friendChat :=
        newFriendChat conversationId (friendChatName conversationName initialMessage) f t timestamp
      (.ok friendChat, messages ++ [friendChat])
  | _, _ => (.fail .validation, messages)

/-! ### Words of a message, as the specification describes them -/

/-- The words of a text: its maximal runs of non-space characters. -/
def wordsOf (text : List Char) : List (List Char) :=
  (splitOnSpace text).filter (fun w => !w.isEmpty)

/-- The first two words of a message joined by one space (the single word when
there is only one): the conversation name the specification describes. -/
def firstTwoWords (initialMessage : String) : String :=
  String.mk ([' '].intercalate ((wordsOf initialMessage.toList).take 2))

/-! ## Theorems: signup -/

theorem find?_username_none (users : Registry) (u : String)
    (hfresh : ∀ x ∈ users, x.username ≠ u) :
    users.find? (fun user => user.username == u) = none := by
  simp only [List.find?_eq_none]
  intro x hx
  simpa using hfresh x hx

/-- C1: in a registry with no user named `u`, `signup(u, p1)` succeeds, a following
`signup(u, p2)` fails with the conflict error and leaves the registry unchanged, and
the resulting registry holds exactly one record whose username is `u`. -/
theorem signup_twice_conflict (users : Registry) (u p1 p2 id1 id2 : String)
    (hfresh : ∀ x ∈ users, x.username ≠ u) :
    (signup users u p1 id1).1 = .ok () ∧
    signup (signup users u p1 id1).2 u p2 id2
      = (.fail .conflict, (signup users u p1 id1).2) ∧
    (signup (signup users u p1 id1).2 u p2 id2).2.countP (fun x => x.username == u) = 1 := by
  have hnone := find?_username_none users u hfresh
  have hcount : users.countP (fun x => x.username == u) = 0 := by
    rw [List.countP_eq_zero]
    intro x hx
    simpa using hfresh x hx
  have h1 : signup users u p1 id1 = (.ok (), users ++ [newUser id1 u p1]) := by
    simp [signup, hnone]
  have h2 : signup (users ++ [newUser id1 u p1]) u p2 id2
      = (.fail .conflict, users ++ [newUser id1 u p1]) := by
    simp [signup, newUser, List.find?_append, hnone]
  rw [h1]
  refine ⟨rfl, h2, ?_⟩
  simp only [h2]
  simp [List.countP_append, hcount, newUser]

theorem signup_twice_conflict_witness :
    (signup [newUser "i0" "carol" "p0"] "alice" "p1" "i1").1 = .ok () ∧
    signup (signup [newUser "i0" "carol" "p0"] "alice" "p1" "i1").2 "alice" "p2" "i2"
      = (.fail .conflict, (signup [newUser "i0" "carol" "p0"] "alice" "p1" "i1").2) ∧
    (signup (signup [newUser "i0" "carol" "p0"] "alice" "p1" "i1").2 "alice" "p2" "i2").2.countP
      (fun x => x.username == "alice") = 1 :=
  signup_twice_conflict [newUser "i0" "carol" "p0"] "alice" "p1" "p2" "i1" "i2" (by decide)

/-! ## Theorems: the repair loop of login -/

theorem repairLoop_cons_pos (u : String) (i j : Nat) (x : User) (rest : List User)
    (fr : List String) (ns : Bool) (h : RepairFires u i j x fr) :
    repairLoop u i j (x :: rest) fr ns
      = repairLoop u i (j + 1) rest (fr ++ [x.username]) true := by
  unfold RepairFires at h
  by_cases hj : j = i
  · simp only [hj, if_true] at h
    simp [repairLoop, hj, h.1, h.2]
  · simp only [hj, if_false] at h
    simp [repairLoop, hj, h.1, h.2]

theorem repairLoop_cons_neg (u : String) (i j : Nat) (x : User) (rest : List User)
    (fr : List String) (ns : Bool) (h : ¬ RepairFires u i j x fr) :
    repairLoop u i j (x :: rest) fr ns = repairLoop u i (j + 1) rest fr ns := by
  unfold RepairFires at h
  by_cases hj : j = i
  · simp only [hj, if_true] at h
    simp only [repairLoop, hj, if_true]
    rw [if_neg]
    simpa using h
  · simp only [hj, if_false] at h
    simp only [repairLoop, hj, if_false]
    rw [if_neg]
    simpa using h

theorem repairLoop_prefix (u : String) (i : Nat) :
    ∀ (l : List User) (j : Nat) (fr : List String) (ns : Bool),
      ∃ added, (repairLoop u i j l fr ns).1 = fr ++ added := by
  intro l
  induction l with
  | nil => intro j fr ns; exact ⟨[], by simp [repairLoop]⟩
  | cons o rest ih =>
    intro j fr ns
    by_cases hc : RepairFires u i j o fr
    · rw [repairLoop_cons_pos _ _ _ _ _ _ _ hc]
      obtain ⟨a, ha⟩ := ih (j + 1) (fr ++ [o.username]) true
      exact ⟨o.username :: a, by simp [ha]⟩
    · rw [repairLoop_cons_neg _ _ _ _ _ _ _ hc]
      exact ih (j + 1) fr ns

theorem repairLoop_mono (u : String) (i : Nat) (l : List User) (j : Nat) (fr : List String)
    (ns : Bool) (n : String) (hn : n ∈ fr) : n ∈ (repairLoop u i j l fr ns).1 := by
  obtain ⟨a, ha⟩ := repairLoop_prefix u i l j fr ns
  rw [ha]; exact List.mem_append_left _ hn

/-- Every user other than the one at `selfIdx` who lists `u` ends up in the result. -/
theorem repairLoop_covers (u : String) (i : Nat) :
    ∀ (l : List User) (j : Nat) (fr : List String) (ns : Bool) (k : Nat) (o : User),
      l[k]? = some o → j + k ≠ i → u ∈ o.friends →
      o.username ∈ (repairLoop u i j l fr ns).1 := by
  intro l
  induction l with
  | nil => intro j fr ns k o h; simp at h
  | cons x rest ih =>
    intro j fr ns k o hk hne hu
    cases k with
    | zero =>
      simp only [List.getElem?_cons_zero, Option.some.injEq] at hk
      subst hk
      have hj : j ≠ i := by simpa using hne
      by_cases hc : RepairFires u i j x fr
      · rw [repairLoop_cons_pos _ _ _ _ _ _ _ hc]
        exact repairLoop_mono _ _ _ _ _ _ _ (by simp)
      · rw [repairLoop_cons_neg _ _ _ _ _ _ _ hc]
        have : x.username ∈ fr := by
          by_contra hx
          exact hc ⟨by simpa [hj] using hu, hx⟩
        exact repairLoop_mono _ _ _ _ _ _ _ this
    | succ k =>
      simp only [List.getElem?_cons_succ] at hk
      have hne2 : j + 1 + k ≠ i := by omega
      by_cases hc : RepairFires u i j x fr
      · rw [repairLoop_cons_pos _ _ _ _ _ _ _ hc]
        exact ih _ _ _ k o hk hne2 hu
      · rw [repairLoop_cons_neg _ _ _ _ _ _ _ hc]
        exact ih _ _ _ k o hk hne2 hu

/-- The loop changes nothing when every other user who lists `u` is already listed
and the user at `selfIdx` is named `u`. -/
theorem repairLoop_noop (u : String) (i : Nat) :
    ∀ (l : List User) (j : Nat) (fr : List String) (ns : Bool),
      (∀ k o, l[k]? = some o → j + k = i → o.username = u) →
      (∀ k o, l[k]? = some o → j + k ≠ i → u ∈ o.friends → o.username ∈ fr) →
      repairLoop u i j l fr ns = (fr, ns) := by
  intro l
  induction l with
  | nil => intro j fr ns _ _; simp [repairLoop]
  | cons x rest ih =>
    intro j fr ns hself hcov
    have hrest : repairLoop u i (j + 1) rest fr ns = (fr, ns) := by
      apply ih
      · intro k o hk hjk
        exact hself (k + 1) o (by simpa using hk) (by omega)
      · intro k o hk hjk hu
        exact hcov (k + 1) o (by simpa using hk) (by omega) hu
    have hc : ¬ RepairFires u i j x fr := by
      rintro ⟨h1, h2⟩
      by_cases hj : j = i
      · have hx : x.username = u := hself 0 x (by simp) (by simpa using hj)
        simp only [hj, if_true] at h1
        exact h2 (hx ▸ h1)
      · simp only [hj, if_false] at h1
        exact h2 (hcov 0 x (by simp) (by simpa using hj) h1)
    rw [repairLoop_cons_neg _ _ _ _ _ _ _ hc, hrest]

theorem repairLoop_flag_true (u : String) (i : Nat) :
    ∀ (l : List User) (j : Nat) (fr : List String),
      (repairLoop u i j l fr true).2 = true := by
  intro l
  induction l with
  | nil => intro j fr; simp [repairLoop]
  | cons x rest ih =>
    intro j fr
    by_cases hc : RepairFires u i j x fr
    · rw [repairLoop_cons_pos _ _ _ _ _ _ _ hc]; exact ih _ _
    · rw [repairLoop_cons_neg _ _ _ _ _ _ _ hc]; exact ih _ _

/-- When the flag stays false no name was pushed. -/
theorem repairLoop_flag_false (u : String) (i : Nat) :
    ∀ (l : List User) (j : Nat) (fr : List String) (ns : Bool),
      (repairLoop u i j l fr ns).2 = false → (repairLoop u i j l fr ns).1 = fr := by
  intro l
  induction l with
  | nil => intro j fr ns _; simp [repairLoop]
  | cons x rest ih =>
    intro j fr ns
    by_cases hc : RepairFires u i j x fr
    · rw [repairLoop_cons_pos _ _ _ _ _ _ _ hc, repairLoop_flag_true]
      intro h
      simp at h
    · rw [repairLoop_cons_neg _ _ _ _ _ _ _ hc]
      exact ih _ _ _

/-- Every name in the result was there before or is the name of another user who
lists `u`. -/
theorem repairLoop_sound (u : String) (i : Nat) :
    ∀ (l : List User) (j : Nat) (fr : List String) (ns : Bool),
      (∀ k o, l[k]? = some o → j + k = i → o.username = u) →
      ∀ n ∈ (repairLoop u i j l fr ns).1,
        n ∈ fr ∨ ∃ k o, l[k]? = some o ∧ j + k ≠ i ∧ o.username = n ∧ u ∈ o.friends := by
  intro l
  induction l with
  | nil => intro j fr ns _ n hn; left; simpa [repairLoop] using hn
  | cons x rest ih =>
    intro j fr ns hself n hn
    have hself2 : ∀ k o, rest[k]? = some o → j + 1 + k = i → o.username = u := by
      intro k o hk hjk
      exact hself (k + 1) o (by simpa using hk) (by omega)
    by_cases hc : RepairFires u i j x fr
    · rw [repairLoop_cons_pos _ _ _ _ _ _ _ hc] at hn
      rcases ih _ _ _ hself2 n hn with h | ⟨k, o, hk, hjk, ho, hu⟩
      · rcases List.mem_append.1 h with h | h
        · exact Or.inl h
        · right
          have hnx : n = x.username := by simpa using h
          obtain ⟨h1, h2⟩ := hc
          by_cases hj : j = i
          · have hx : x.username = u := hself 0 x (by simp) (by simpa using hj)
            simp only [hj, if_true] at h1
            exact absurd (hx ▸ h1) h2
          · simp only [hj, if_false] at h1
            exact ⟨0, x, by simp, by simpa using hj, hnx.symm, h1⟩
      · exact Or.inr ⟨k + 1, o, by simpa using hk, by omega, ho, hu⟩
    · rw [repairLoop_cons_neg _ _ _ _ _ _ _ hc] at hn
      rcases ih _ _ _ hself2 n hn with h | ⟨k, o, hk, hjk, ho, hu⟩
      · exact Or.inl h
      · exact Or.inr ⟨k + 1, o, by simpa using hk, by omega, ho, hu⟩

/-! ## Theorems: login -/

theorem find?_some_getElem?_findIdx {α : Type} (p : α → Bool) :
    ∀ (l : List α) (a : α), l.find? p = some a → l[l.findIdx p]? = some a ∧ p a = true := by
  intro l
  induction l with
  | nil => intro a h; simp at h
  | cons x xs ih =>
    intro a h
    by_cases hx : p x = true
    · simp only [List.find?_cons, hx, Option.some.injEq] at h
      subst h
      simp [List.findIdx_cons, hx]
    · simp only [List.find?_cons, hx] at h
      simpa [List.findIdx_cons, hx] using ih a h

theorem find?_set_findIdx {α : Type} (p : α → Bool) (b : α) (hb : p b = true) :
    ∀ (l : List α) (a : α), l.find? p = some a →
      (l.set (l.findIdx p) b).find? p = some b ∧
      (l.set (l.findIdx p) b).findIdx p = l.findIdx p := by
  intro l
  induction l with
  | nil => intro a h; simp at h
  | cons x xs ih =>
    intro a h
    by_cases hx : p x = true
    · simp [List.findIdx_cons, hx, hb]
    · simp only [List.find?_cons, hx] at h
      have := ih a h
      simp [List.findIdx_cons, hx, this.1, this.2]

/-- The outcome of a successful login, with the final state of the loop named. -/
theorem login_of_find (users : Registry) (u pw : String) (user : User)
    (hfind : users.find? (matchesCredentials u pw) = some user) :
    login users u pw =
      { response := .ok (user.id, user.username)
        needsSave :=
          (repairLoop u (users.findIdx (matchesCredentials u pw)) 0 users user.friends false).2
        registry := users.set (users.findIdx (matchesCredentials u pw))
          { user with friends :=
              (repairLoop u (users.findIdx (matchesCredentials u pw)) 0 users
                user.friends false).1 } } := by
  have hget := (find?_some_getElem?_findIdx _ users user hfind).1
  simp only [login, hfind]
  congr 1
  split
  · rfl
  · rename_i h
    have h2 : (repairLoop u (users.findIdx (matchesCredentials u pw)) 0 users
        user.friends false).2 = false := by simpa using h
    rw [repairLoop_flag_false _ _ _ _ _ _ h2]
    symm
    apply List.ext_getElem?
    intro k
    by_cases hk : users.findIdx (matchesCredentials u pw) = k
    · subst hk
      have hlt : users.findIdx (matchesCredentials u pw) < users.length := by
        by_contra hge
        rw [List.getElem?_eq_none (by omega)] at hget
        simp at hget
      rw [List.getElem?_set, if_pos rfl, if_pos hlt, hget]
    · rw [List.getElem?_set_ne hk]

theorem mem_set_cases {α : Type} (l : List α) (i : Nat) (b x : α) (hx : x ∈ l.set i b) :
    x = b ∨ ∃ k, k ≠ i ∧ l[k]? = some x := by
  obtain ⟨k, hk⟩ := List.mem_iff_getElem?.1 hx
  by_cases hik : i = k
  · subst hik
    rw [List.getElem?_set] at hk
    simp only [if_true] at hk
    split at hk
    · left; simpa using hk.symm
    · simp at hk
  · rw [List.getElem?_set_ne hik] at hk
    exact Or.inr ⟨k, fun h => hik h.symm, hk⟩

theorem matchesCredentials_iff (u pw : String) (x : User) :
    matchesCredentials u pw x = true ↔ x.username = u ∧ x.password = pw := by
  simp [matchesCredentials]

/-- C2: after a successful login of `U`, every user `O` of the resulting registry whose
friend list contains `U`'s username is named in `U`'s friend list, and `U`'s new friend
list is the old one followed by the appended usernames. -/
theorem login_repairs_friendships (users : Registry) (u pw : String) (user : User)
    (hfind : users.find? (matchesCredentials u pw) = some user) :
    ∃ added : List String,
      (login users u pw).response = .ok (user.id, user.username) ∧
      (login users u pw).registry
        = users.set (users.findIdx (matchesCredentials u pw))
            { user with friends := user.friends ++ added } ∧
      (login users u pw).registry.find? (matchesCredentials u pw)
        = some { user with friends := user.friends ++ added } ∧
      ∀ O ∈ (login users u pw).registry,
        user.username ∈ O.friends → O.username ∈ user.friends ++ added := by
  obtain ⟨added, hadd⟩ := repairLoop_prefix u (users.findIdx (matchesCredentials u pw))
    users 0 user.friends false
  have hget := find?_some_getElem?_findIdx _ users user hfind
  have hname : user.username = u := ((matchesCredentials_iff u pw user).1 hget.2).1
  have hpw : user.password = pw := ((matchesCredentials_iff u pw user).1 hget.2).2
  refine ⟨added, ?_, ?_, ?_, ?_⟩
  · rw [login_of_find users u pw user hfind]
  · rw [login_of_find users u pw user hfind, hadd]
  · rw [login_of_find users u pw user hfind, hadd]
    exact (find?_set_findIdx _ _ (by simp [matchesCredentials, hname, hpw]) users user hfind).1
  · rw [login_of_find users u pw user hfind]
    intro O hO hu
    rw [hname] at hu
    rcases mem_set_cases _ _ _ _ hO with h | ⟨k, hk, hOk⟩
    · subst h
      rw [← hadd]
      simpa [hname] using hu
    · rw [← hadd]
      exact repairLoop_covers u _ users 0 user.friends false k O hOk (by simpa using hk) hu

theorem login_repairs_friendships_witness :
    [(⟨"1", "ann", "p", [], none, none⟩ : User), ⟨"2", "bob", "q", ["ann"], none, none⟩].find?
        (matchesCredentials "ann" "p") = some ⟨"1", "ann", "p", [], none, none⟩ ∧
    ∃ added : List String,
      (login [⟨"1", "ann", "p", [], none, none⟩, ⟨"2", "bob", "q", ["ann"], none, none⟩]
        "ann" "p").response = .ok ("1", "ann") ∧
      (login [⟨"1", "ann", "p", [], none, none⟩, ⟨"2", "bob", "q", ["ann"], none, none⟩]
        "ann" "p").registry
        = ([⟨"1", "ann", "p", [], none, none⟩, ⟨"2", "bob", "q", ["ann"], none, none⟩] :
            Registry).set
            (([⟨"1", "ann", "p", [], none, none⟩, ⟨"2", "bob", "q", ["ann"], none, none⟩] :
              Registry).findIdx (matchesCredentials "ann" "p"))
            ⟨"1", "ann", "p", [] ++ added, none, none⟩ ∧
      (login [⟨"1", "ann", "p", [], none, none⟩, ⟨"2", "bob", "q", ["ann"], none, none⟩]
        "ann" "p").registry.find? (matchesCredentials "ann" "p")
        = some ⟨"1", "ann", "p", [] ++ added, none, none⟩ ∧
      ∀ O ∈ (login [⟨"1", "ann", "p", [], none, none⟩, ⟨"2", "bob", "q", ["ann"], none, none⟩]
          "ann" "p").registry,
        "ann" ∈ O.friends → O.username ∈ [] ++ added :=
  ⟨by decide,
   login_repairs_friendships
     [⟨"1", "ann", "p", [], none, none⟩, ⟨"2", "bob", "q", ["ann"], none, none⟩] "ann" "p"
     ⟨"1", "ann", "p", [], none, none⟩ (by decide)⟩

/-- C3: login repair is idempotent.  A second login with the same credentials gives the
same response, leaves the registry of the first login unchanged and does not persist
(`needsSave` is false: no repair happened). -/
theorem login_twice_idempotent (users : Registry) (u pw : String) (user : User)
    (hfind : users.find? (matchesCredentials u pw) = some user) :
    login (login users u pw).registry u pw =
      { response := (login users u pw).response
        needsSave := false
        registry := (login users u pw).registry } := by
  have hget := find?_some_getElem?_findIdx _ users user hfind
  have hname : user.username = u := ((matchesCredentials_iff u pw user).1 hget.2).1
  have hpw : user.password = pw := ((matchesCredentials_iff u pw user).1 hget.2).2
  rw [login_of_find users u pw user hfind]
  simp only
  generalize hi : users.findIdx (matchesCredentials u pw) = i at *
  generalize hr : repairLoop u i 0 users user.friends false = r at *
  have hmatch : matchesCredentials u pw { user with friends := r.1 } = true := by
    simp [matchesCredentials, hname, hpw]
  have hf := find?_set_findIdx _ { user with friends := r.1 } hmatch users user hfind
  rw [hi] at hf
  rw [login_of_find _ u pw _ hf.1, hf.2]
  have hlt : i < users.length := by
    by_contra hge
    rw [List.getElem?_eq_none (by omega)] at hget
    simp at hget
  have hnoop : repairLoop u i 0 (users.set i { user with friends := r.1 }) r.1 false
      = (r.1, false) := by
    apply repairLoop_noop
    · intro k o hk hki
      have hki2 : i = k := by omega
      subst hki2
      rw [List.getElem?_set, if_pos rfl, if_pos hlt] at hk
      simp only [Option.some.injEq] at hk
      rw [← hk]
      exact hname
    · intro k o hk hki hu
      have hki2 : i ≠ k := by omega
      rw [List.getElem?_set_ne hki2] at hk
      rw [← hr]
      exact repairLoop_covers u i users 0 user.friends false k o hk hki hu
  simp only [hnoop, List.set_set]

theorem login_twice_idempotent_witness :
    [(⟨"1", "ann", "p", [], none, none⟩ : User), ⟨"2", "bob", "q", ["ann"], none, none⟩].find?
        (matchesCredentials "ann" "p") = some ⟨"1", "ann", "p", [], none, none⟩ ∧
    login (login [⟨"1", "ann", "p", [], none, none⟩, ⟨"2", "bob", "q", ["ann"], none, none⟩]
        "ann" "p").registry "ann" "p" =
      { response := (login [⟨"1", "ann", "p", [], none, none⟩,
          ⟨"2", "bob", "q", ["ann"], none, none⟩] "ann" "p").response
        needsSave := false
        registry := (login [⟨"1", "ann", "p", [], none, none⟩,
          ⟨"2", "bob", "q", ["ann"], none, none⟩] "ann" "p").registry } :=
  ⟨by decide,
   login_twice_idempotent
     [⟨"1", "ann", "p", [], none, none⟩, ⟨"2", "bob", "q", ["ann"], none, none⟩] "ann" "p"
     ⟨"1", "ann", "p", [], none, none⟩ (by decide)⟩

/-- C4, as stated, fails: ann lists bob, bob does not list ann.  The login of ann
succeeds and repairs nothing (nobody lists ann), so afterwards ann's list still
contains bob while bob's list does not contain ann. -/
theorem login_symmetry_counterexample :
    ¬ (∀ U : User,
        (login [⟨"1", "ann", "p", ["bob"], none, none⟩, ⟨"2", "bob", "q", [], none, none⟩]
          "ann" "p").registry.find? (matchesCredentials "ann" "p") = some U →
        ∀ O ∈ (login [⟨"1", "ann", "p", ["bob"], none, none⟩,
            ⟨"2", "bob", "q", [], none, none⟩] "ann" "p").registry,
          O ≠ U → (O.username ∈ U.friends ↔ U.username ∈ O.friends)) := by
  intro h
  have h1 := h ⟨"1", "ann", "p", ["bob"], none, none⟩ (by decide)
    ⟨"2", "bob", "q", [], none, none⟩ (by decide) (by decide)
  revert h1
  decide

/-- C4, amended: after a successful login of `U`, every user `O` whose friend list
contains `U`'s username is named in `U`'s friend list.  Login never writes `O`'s list,
so the converse holds only where it held before: when usernames are pairwise distinct
and every user named in `U`'s old list already listed `U`, then for every other user `O`
the two memberships are equivalent. -/
theorem login_symmetry_amended (users : Registry) (u pw : String) (user U : User)
    (hfind : users.find? (matchesCredentials u pw) = some user)
    (hU : (login users u pw).registry.find? (matchesCredentials u pw) = some U) :
    (∀ O ∈ (login users u pw).registry, U.username ∈ O.friends → O.username ∈ U.friends) ∧
    ((users.map (fun x => x.username)).Nodup →
      (∀ O ∈ users, O.username ∈ user.friends → user.username ∈ O.friends) →
      ∀ O ∈ (login users u pw).registry, O ≠ U →
        (O.username ∈ U.friends ↔ U.username ∈ O.friends)) := by
  have hget := find?_some_getElem?_findIdx _ users user hfind
  have hname : user.username = u := ((matchesCredentials_iff u pw user).1 hget.2).1
  have hpw : user.password = pw := ((matchesCredentials_iff u pw user).1 hget.2).2
  rw [login_of_find users u pw user hfind] at hU ⊢
  simp only at hU ⊢
  generalize hi : users.findIdx (matchesCredentials u pw) = i at *
  have hmatch : matchesCredentials u pw
      { user with friends := (repairLoop u i 0 users user.friends false).1 } = true := by
    simp [matchesCredentials, hname, hpw]
  have hf := find?_set_findIdx _ _ hmatch users user hfind
  rw [hi] at hf
  rw [hf.1] at hU
  simp only [Option.some.injEq] at hU
  subst hU
  simp only
  have hfwd : ∀ O ∈ users.set i
      { user with friends := (repairLoop u i 0 users user.friends false).1 },
      user.username ∈ O.friends →
        O.username ∈ (repairLoop u i 0 users user.friends false).1 := by
    intro O hO hu
    rw [hname] at hu
    rcases mem_set_cases _ _ _ _ hO with h | ⟨k, hk, hOk⟩
    · subst h
      simpa [hname] using hu
    · exact repairLoop_covers u i users 0 user.friends false k O hOk (by simpa using hk) hu
  refine ⟨hfwd, ?_⟩
  intro hnodup hconv O hO hne
  refine ⟨?_, hfwd O hO⟩
  intro hin
  rcases mem_set_cases _ _ _ _ hO with h | ⟨k, hk, hOk⟩
  · exact absurd h hne
  · have hOmem : O ∈ users := List.mem_iff_getElem?.2 ⟨k, hOk⟩
    have hself : ∀ k o, users[k]? = some o → 0 + k = i → o.username = u := by
      intro k o hko hki
      have hki2 : k = i := by omega
      subst hki2
      rw [hget.1] at hko
      simp only [Option.some.injEq] at hko
      rw [← hko]; exact hname
    rcases repairLoop_sound u i users 0 user.friends false hself _ hin with h | ⟨k2, o2, hk2, _, ho2, hu2⟩
    · exact hconv O hOmem h
    · have ho2mem : o2 ∈ users := List.mem_iff_getElem?.2 ⟨k2, hk2⟩
      have : o2 = O := List.inj_on_of_nodup_map hnodup ho2mem hOmem ho2
      rw [← this, hname]
      exact hu2

theorem login_symmetry_amended_witness :
    [(⟨"1", "ann", "p", [], none, none⟩ : User), ⟨"2", "bob", "q", ["ann"], none, none⟩].find?
        (matchesCredentials "ann" "p") = some ⟨"1", "ann", "p", [], none, none⟩ ∧
    (login [⟨"1", "ann", "p", [], none, none⟩, ⟨"2", "bob", "q", ["ann"], none, none⟩]
        "ann" "p").registry.find? (matchesCredentials "ann" "p")
      = some ⟨"1", "ann", "p", ["bob"], none, none⟩ ∧
    ∀ O ∈ (login [⟨"1", "ann", "p", [], none, none⟩, ⟨"2", "bob", "q", ["ann"], none, none⟩]
        "ann" "p").registry,
      O ≠ ⟨"1", "ann", "p", ["bob"], none, none⟩ →
        (O.username ∈ ["bob"] ↔ "ann" ∈ O.friends) :=
  ⟨by decide, by decide,
   (login_symmetry_amended
     [⟨"1", "ann", "p", [], none, none⟩, ⟨"2", "bob", "q", ["ann"], none, none⟩] "ann" "p"
     ⟨"1", "ann", "p", [], none, none⟩ ⟨"1", "ann", "p", ["bob"], none, none⟩
     (by decide) (by decide)).2 (by decide) (by decide)⟩

/-! ## Theorems: friend requests -/

theorem find?_eq_getElem?_findIdx {α : Type} (p : α → Bool) :
    ∀ l : List α, l.find? p = l[l.findIdx p]? := by
  intro l
  induction l with
  | nil => simp
  | cons x xs ih =>
    by_cases hx : p x = true
    · simp [List.findIdx_cons, hx]
    · simp [List.findIdx_cons, hx, ih]

theorem findIdx_modify_of_invariant {α : Type} (p : α → Bool) (g : α → α)
    (hg : ∀ x, p (g x) = p x) :
    ∀ (l : List α) (n : Nat), (l.modify g n).findIdx p = l.findIdx p := by
  intro l
  induction l with
  | nil => intro n; cases n <;> simp [List.modify]
  | cons x xs ih =>
    intro n
    cases n with
    | zero => simp [List.modify, List.findIdx_cons, hg]
    | succ n => simp [List.findIdx_cons, ih n]

theorem pushFriend_username (name n : String) (x : User) :
    ((pushFriend name x).username == n) = (x.username == n) := rfl

/-- The registry written by a friend request that passes both checks. -/
theorem sendFriendRequest_ok (users : Registry) (f t : String) (A B : User)
    (hA : users.find? (fun user => user.username == f) = some A)
    (hB : users.find? (fun user => user.username == t) = some B)
    (hnot : f ∉ B.friends) :
    sendFriendRequest users f t =
      (.ok (), (users.modify (pushFriend f)
          (users.findIdx (fun user => user.username == t))).modify (pushFriend t)
          (users.findIdx (fun user => user.username == f))) := by
  simp [sendFriendRequest, hA, hB, hnot]

/-- C5: when the users `A` and `B` found under the names `f` and `t` are distinct and
`B` does not list `f`, the friend request succeeds; `A` and `B` stay at their positions
with `t` appended to `A.friends` and `f` appended to `B.friends`, and every other record
is unchanged.  In particular after `signup(alice)`, `signup(bob)` on the empty registry
the request leaves `alice.friends = [bob]` and `bob.friends = [alice]`. -/
theorem sendFriendRequest_appends_both (users : Registry) (f t : String) (A B : User)
    (hA : users.find? (fun user => user.username == f) = some A)
    (hB : users.find? (fun user => user.username == t) = some B)
    (hAB : A ≠ B) (hnot : f ∉ B.friends) :
    (∃ i j : Nat, i ≠ j ∧ users[i]? = some A ∧ users[j]? = some B ∧
      (sendFriendRequest users f t).1 = .ok () ∧
      (sendFriendRequest users f t).2.length = users.length ∧
      (sendFriendRequest users f t).2[i]? = some { A with friends := A.friends ++ [t] } ∧
      (sendFriendRequest users f t).2[j]? = some { B with friends := B.friends ++ [f] } ∧
      (∀ k : Nat, k ≠ i → k ≠ j → (sendFriendRequest users f t).2[k]? = users[k]?) ∧
      (sendFriendRequest users f t).2.find? (fun user => user.username == f)
        = some { A with friends := A.friends ++ [t] } ∧
      (sendFriendRequest users f t).2.find? (fun user => user.username == t)
        = some { B with friends := B.friends ++ [f] }) ∧
    (∀ p1 p2 id1 id2 : String,
      (sendFriendRequest (signup (signup [] "alice" p1 id1).2 "bob" p2 id2).2 "alice" "bob").2
        = [{ id := id1, username := "alice", password := p1, friends := ["bob"] },
           { id := id2, username := "bob", password := p2, friends := ["alice"] }]) := by
  constructor
  · have hgA := find?_some_getElem?_findIdx _ users A hA
    have hgB := find?_some_getElem?_findIdx _ users B hB
    have hij : users.findIdx (fun user => user.username == f)
        ≠ users.findIdx (fun user => user.username == t) := by
      intro h
      rw [h, hgB.1] at hgA
      exact hAB (by simpa using hgA.1.symm)
    have hAi : ((users.modify (pushFriend f)
          (users.findIdx (fun user => user.username == t))).modify (pushFriend t)
          (users.findIdx (fun user => user.username == f)))[
            users.findIdx (fun user => user.username == f)]?
        = some { A with friends := A.friends ++ [t] } := by
      rw [List.getElem?_modify_eq, List.getElem?_modify_ne _ _ (Ne.symm hij), hgA.1]
      rfl
    have hBj : ((users.modify (pushFriend f)
          (users.findIdx (fun user => user.username == t))).modify (pushFriend t)
          (users.findIdx (fun user => user.username == f)))[
            users.findIdx (fun user => user.username == t)]?
        = some { B with friends := B.friends ++ [f] } := by
      rw [List.getElem?_modify_ne _ _ hij, List.getElem?_modify_eq, hgB.1]
      rfl
    refine ⟨_, _, hij, hgA.1, hgB.1, ?_⟩
    rw [sendFriendRequest_ok users f t A B hA hB hnot]
    refine ⟨rfl, by simp, hAi, hBj, ?_, ?_, ?_⟩
    · intro k hki hkj
      simp only
      rw [List.getElem?_modify_ne _ _ (Ne.symm hki), List.getElem?_modify_ne _ _ (Ne.symm hkj)]
    · simp only
      rw [find?_eq_getElem?_findIdx,
        findIdx_modify_of_invariant _ _ (pushFriend_username t f),
        findIdx_modify_of_invariant _ _ (pushFriend_username f f)]
      exact hAi
    · simp only
      rw [find?_eq_getElem?_findIdx,
        findIdx_modify_of_invariant _ _ (pushFriend_username t t),
        findIdx_modify_of_invariant _ _ (pushFriend_username f t)]
      exact hBj
  · intro p1 p2 id1 id2
    simp [signup, sendFriendRequest, newUser, pushFriend, List.findIdx_cons, List.modify]

theorem sendFriendRequest_appends_both_witness :
    [(⟨"1", "ann", "p", ["cy"], none, none⟩ : User), ⟨"2", "bob", "q", [], none, none⟩,
        ⟨"3", "cy", "r", ["ann"], none, none⟩].find? (fun user => user.username == "ann")
      = some ⟨"1", "ann", "p", ["cy"], none, none⟩ ∧
    [(⟨"1", "ann", "p", ["cy"], none, none⟩ : User), ⟨"2", "bob", "q", [], none, none⟩,
        ⟨"3", "cy", "r", ["ann"], none, none⟩].find? (fun user => user.username == "bob")
      = some ⟨"2", "bob", "q", [], none, none⟩ ∧
    (sendFriendRequest [⟨"1", "ann", "p", ["cy"], none, none⟩, ⟨"2", "bob", "q", [], none, none⟩,
        ⟨"3", "cy", "r", ["ann"], none, none⟩] "ann" "bob").2.find?
        (fun user => user.username == "bob")
      = some ⟨"2", "bob", "q", ["ann"], none, none⟩ := by
  refine ⟨by decide, by decide, ?_⟩
  obtain ⟨_, _, _, _, _, _, _, _, _, _, _, h⟩ :=
    (sendFriendRequest_appends_both
      [⟨"1", "ann", "p", ["cy"], none, none⟩, ⟨"2", "bob", "q", [], none, none⟩,
        ⟨"3", "cy", "r", ["ann"], none, none⟩] "ann" "bob"
      ⟨"1", "ann", "p", ["cy"], none, none⟩ ⟨"2", "bob", "q", [], none, none⟩
      (by decide) (by decide) (by decide) (by decide)).1
  exact h

/-- C6: a friend request fails with the not-found error exactly when no user is named
`f` or no user is named `t`; when both exist it fails with the conflict error exactly
when the friend list of the user found under `t` contains `f`; and every failing
request leaves the registry unchanged. -/
theorem sendFriendRequest_failures (users : Registry) (f t : String) :
    ((sendFriendRequest users f t).1 = .fail .notFound ↔
      (¬ ∃ x ∈ users, x.username = f) ∨ (¬ ∃ x ∈ users, x.username = t)) ∧
    (∀ A B : User,
      users.find? (fun user => user.username == f) = some A →
      users.find? (fun user => user.username == t) = some B →
      ((sendFriendRequest users f t).1 = .fail .conflict ↔ f ∈ B.friends)) ∧
    (∀ e, (sendFriendRequest users f t).1 = .fail e →
      (sendFriendRequest users f t).2 = users) := by
  have hnone : ∀ n : String, users.find? (fun user => user.username == n) = none ↔
      ¬ ∃ x ∈ users, x.username = n := by
    intro n
    simp
  refine ⟨?_, ?_, ?_⟩
  · rw [← hnone f, ← hnone t]
    unfold sendFriendRequest
    cases hA : users.find? (fun user => user.username == f) with
    | none => simp
    | some A =>
      cases hB : users.find? (fun user => user.username == t) with
      | none => simp
      | some B =>
        simp only
        split <;> simp
  · intro A B hA hB
    unfold sendFriendRequest
    simp only [hA, hB]
    split
    · rename_i h
      simpa using h
    · rename_i h
      simpa using h
  · intro e
    unfold sendFriendRequest
    cases hA : users.find? (fun user => user.username == f) with
    | none => simp
    | some A =>
      cases hB : users.find? (fun user => user.username == t) with
      | none => simp
      | some B =>
        simp only
        split <;> simp

/-! ## Theorems: the ledger -/

theorem truthy_some (c : String) (hc : c ≠ "") : truthy (some c) = true := by
  simp [truthy, hc]

/-- C7: for a non-empty conversation id `c`, after `deleteConversation(c)` no record of
the ledger has `conversationId` or `id` equal to `c`, and `listConversationMessages(c)`
on the resulting ledger returns the empty sequence. -/
theorem deleteConversation_removes_all (messages : Ledger) (c : String) (hc : c ≠ "") :
    (deleteConversation messages (some c)).1 = .ok () ∧
    (∀ r ∈ (deleteConversation messages (some c)).2,
      r.conversationId ≠ some c ∧ r.id ≠ some c) ∧
    listConversationMessages (deleteConversation messages (some c)).2 (some c) = .ok [] := by
  have hdel : deleteConversation messages (some c) =
      (.ok (), messages.filter (fun msg =>
        msg.conversationId != some c && msg.id != some c)) := by
    simp [deleteConversation, truthy_some c hc]
  rw [hdel]
  refine ⟨rfl, ?_, ?_⟩
  · intro r hr
    simpa using (List.mem_filter.1 hr).2
  · simp only [listConversationMessages, truthy_some c hc]
    simp only [Bool.not_true, Bool.false_eq_true, if_false, Response.ok.injEq]
    rw [List.filter_eq_nil_iff]
    intro r hr
    have h := (List.mem_filter.1 hr).2
    simp only [Bool.and_eq_true, bne_iff_ne, ne_eq] at h
    simp [h.1, h.2]

theorem deleteConversation_removes_all_witness :
    "c1" ≠ "" ∧
    (deleteConversation
      [newChat "c1" (some "room") "t0", newMessage "m1" (some "ann") (some "c1") (some "hi") "t1",
       newMessage "m2" (some "ann") (some "c2") (some "yo") "t2"] (some "c1")).1 = .ok () ∧
    (∀ r ∈ (deleteConversation
        [newChat "c1" (some "room") "t0",
         newMessage "m1" (some "ann") (some "c1") (some "hi") "t1",
         newMessage "m2" (some "ann") (some "c2") (some "yo") "t2"] (some "c1")).2,
      r.conversationId ≠ some "c1" ∧ r.id ≠ some "c1") ∧
    listConversationMessages (deleteConversation
        [newChat "c1" (some "room") "t0",
         newMessage "m1" (some "ann") (some "c1") (some "hi") "t1",
         newMessage "m2" (some "ann") (some "c2") (some "yo") "t2"] (some "c1")).2 (some "c1")
      = .ok [] :=
  ⟨by decide, deleteConversation_removes_all _ "c1" (by decide)⟩

theorem listUserConversations_ok (messages : Ledger) (U : String) (hU : U ≠ "") :
    listUserConversations messages (some U) =
      .ok { yourChats := (messages.filter (isVisibleTo U)).filter
              (fun chat => chat.creator == some U)
            friendChats := (messages.filter (isVisibleTo U)).filter
              (fun chat => chat.creator != some U) } := by
  simp [listUserConversations, hU]

theorem isVisibleTo_iff (U : String) (r : LedgerRecord) :
    isVisibleTo U r = true ↔
      (∃ ps, r.participants = some ps ∧ U ∈ ps) ∨ r.creator = some U ∨ r.type = some "chat" := by
  unfold isVisibleTo
  cases hp : r.participants with
  | none => simp
  | some ps => simp [or_assoc]

/-- C8, as stated, fails: a record with `type == "chat"` whose `creator` is the
requesting user is put into `yourChats`, not into `friendChats`. -/
theorem broadcast_in_joined_counterexample :
    ¬ (∀ r ∈ ([{ id := some "c1", conversationName := some "room", type := some "chat",
                 creator := some "u1" }] : Ledger),
        r.type = some "chat" →
        ∃ chats, listUserConversations
            [{ id := some "c1", conversationName := some "room", type := some "chat",
               creator := some "u1" }] (some "u1") = .ok chats ∧
          r ∈ chats.friendChats) := by
  intro h
  obtain ⟨chats, hc, hmem⟩ := h _ (List.mem_singleton.2 rfl) rfl
  rw [listUserConversations_ok _ "u1" (by decide)] at hc
  simp only [Response.ok.injEq] at hc
  rw [← hc] at hmem
  simp [List.mem_filter] at hmem

/-- C8, amended: for every ledger and non-empty user id `U`, every record with
`type == "chat"` whose `creator` is not `U` is in `friendChats` (a chat record whose
creator is `U` is in `yourChats` and not in `friendChats`).  The record written by
`createBroadcastChat` has no creator, so it is in `friendChats` for every `U`. -/
theorem broadcast_in_joined_amended (messages : Ledger) (U : String) (hU : U ≠ "") :
    (∃ chats, listUserConversations messages (some U) = .ok chats ∧
      (∀ r ∈ messages, r.type = some "chat" → r.creator ≠ some U → r ∈ chats.friendChats) ∧
      (∀ r ∈ messages, r.type = some "chat" → r.creator = some U →
        r ∈ chats.yourChats ∧ r ∉ chats.friendChats)) ∧
    (∀ (name : Option String) (cid ts : String), truthy name = true →
      ∃ chats, listUserConversations (createBroadcastChat messages name cid ts).2 (some U)
          = .ok chats ∧
        (createBroadcastChat messages name cid ts).2 = messages ++ [newChat cid name ts] ∧
        newChat cid name ts ∈ chats.friendChats) := by
  constructor
  · refine ⟨_, listUserConversations_ok messages U hU, ?_, ?_⟩
    · intro r hr ht hcr
      simp only [List.mem_filter, isVisibleTo_iff]
      exact ⟨⟨hr, Or.inr (Or.inr ht)⟩, by simpa using hcr⟩
    · intro r hr ht hcr
      simp only [List.mem_filter, isVisibleTo_iff]
      exact ⟨⟨⟨hr, Or.inr (Or.inr ht)⟩, by simpa using hcr⟩, by simp [hcr]⟩
  · intro name cid ts hname
    refine ⟨_, listUserConversations_ok _ U hU, ?_, ?_⟩
    · simp [createBroadcastChat, hname]
    · simp only [List.mem_filter, isVisibleTo_iff]
      refine ⟨⟨?_, Or.inr (Or.inr rfl)⟩, ?_⟩
      · simp [createBroadcastChat, hname]
      · simp [newChat]

theorem broadcast_in_joined_amended_witness :
    "u1" ≠ "" ∧
    ∃ chats, listUserConversations
        [newChat "c1" (some "room") "t0", newMessage "m1" (some "ann") (some "c1") (some "hi") "t1"]
        (some "u1") = .ok chats ∧
      newChat "c1" (some "room") "t0" ∈ chats.friendChats := by
  refine ⟨by decide, ?_⟩
  obtain ⟨chats, hc, h1, _⟩ := (broadcast_in_joined_amended
    [newChat "c1" (some "room") "t0", newMessage "m1" (some "ann") (some "c1") (some "hi") "t1"]
    "u1" (by decide)).1
  exact ⟨chats, hc, h1 _ (by decide) rfl (by decide)⟩

theorem count_filter_of_pos (p : LedgerRecord → Bool) (r : LedgerRecord) (l : Ledger)
    (h : p r = true) : (l.filter p).count r = l.count r :=
  List.count_filter h

/-- C9: for a non-empty user id `U` the two buckets of `listUserConversations(U)`
partition the visible records (participants contain `U`, or creator is `U`, or type is
"chat"): `yourChats` holds exactly the visible records with creator `U`, `friendChats`
exactly the visible records with another or no creator, no record is in both, each
bucket is a subsequence of the ledger, and every occurrence of a visible record is in
exactly one bucket. -/
theorem listUserConversations_partition (messages : Ledger) (U : String) (hU : U ≠ "") :
    ∃ chats, listUserConversations messages (some U) = .ok chats ∧
      (∀ r, r ∈ chats.yourChats ↔
        r ∈ messages ∧
        ((∃ ps, r.participants = some ps ∧ U ∈ ps) ∨ r.creator = some U ∨
          r.type = some "chat") ∧
        r.creator = some U) ∧
      (∀ r, r ∈ chats.friendChats ↔
        r ∈ messages ∧
        ((∃ ps, r.participants = some ps ∧ U ∈ ps) ∨ r.creator = some U ∨
          r.type = some "chat") ∧
        r.creator ≠ some U) ∧
      (∀ r, ¬ (r ∈ chats.yourChats ∧ r ∈ chats.friendChats)) ∧
      chats.yourChats.Sublist messages ∧
      chats.friendChats.Sublist messages ∧
      (∀ r, ((∃ ps, r.participants = some ps ∧ U ∈ ps) ∨ r.creator = some U ∨
          r.type = some "chat") →
        chats.yourChats.count r + chats.friendChats.count r = messages.count r) := by
  refine ⟨_, listUserConversations_ok messages U hU, ?_, ?_, ?_, ?_, ?_, ?_⟩
  · intro r
    simp only [List.mem_filter, isVisibleTo_iff, beq_iff_eq, and_assoc]
  · intro r
    simp only [List.mem_filter, isVisibleTo_iff, bne_iff_ne, ne_eq, and_assoc]
  · intro r
    simp only [List.mem_filter, beq_iff_eq, bne_iff_ne, ne_eq]
    rintro ⟨⟨_, h1⟩, ⟨_, h2⟩⟩
    exact h2 h1
  · exact (List.filter_sublist _).trans (List.filter_sublist _)
  · exact (List.filter_sublist _).trans (List.filter_sublist _)
  · intro r hv
    have hvis : isVisibleTo U r = true := (isVisibleTo_iff U r).2 hv
    simp only
    by_cases hc : r.creator = some U
    · have h1 : (r.creator == some U) = true := by simpa using hc
      have h2 : r ∉ (messages.filter (isVisibleTo U)).filter
          (fun chat => chat.creator != some U) := by
        simp [List.mem_filter, hc]
      rw [count_filter_of_pos _ _ _ h1, count_filter_of_pos _ _ _ hvis,
        List.count_eq_zero_of_not_mem h2]
      rfl
    · have h1 : (r.creator != some U) = true := by simpa using hc
      have h2 : r ∉ (messages.filter (isVisibleTo U)).filter
          (fun chat => chat.creator == some U) := by
        simp [List.mem_filter, hc]
      rw [count_filter_of_pos (fun chat => chat.creator != some U) _ _ h1,
        count_filter_of_pos _ _ _ hvis, List.count_eq_zero_of_not_mem h2]
      simp

theorem listUserConversations_partition_witness :
    "u1" ≠ "" ∧
    ∃ chats, listUserConversations
        [newChat "c1" (some "room") "t0", newFriendChat "c2" (some "hi") "u1" "u2" "t1",
         newFriendChat "c3" (some "yo") "u2" "u1" "t2",
         newFriendChat "c4" (some "no") "u2" "u3" "t3"] (some "u1") = .ok chats ∧
      chats.yourChats = [newFriendChat "c2" (some "hi") "u1" "u2" "t1"] ∧
      chats.friendChats
        = [newChat "c1" (some "room") "t0", newFriendChat "c3" (some "yo") "u2" "u1" "t2"] := by
  refine ⟨by decide, ?_⟩
  obtain ⟨chats, hc, _⟩ := listUserConversations_partition
    [newChat "c1" (some "room") "t0", newFriendChat "c2" (some "hi") "u1" "u2" "t1",
     newFriendChat "c3" (some "yo") "u2" "u1" "t2",
     newFriendChat "c4" (some "no") "u2" "u3" "t3"] "u1" (by decide)
  refine ⟨chats, hc, ?_⟩
  have hl : listUserConversations
      [newChat "c1" (some "room") "t0", newFriendChat "c2" (some "hi") "u1" "u2" "t1",
       newFriendChat "c3" (some "yo") "u2" "u1" "t2",
       newFriendChat "c4" (some "no") "u2" "u3" "t3"] (some "u1")
      = .ok { yourChats := [newFriendChat "c2" (some "hi") "u1" "u2" "t1"]
              friendChats := [newChat "c1" (some "room") "t0",
                newFriendChat "c3" (some "yo") "u2" "u1" "t2"] } := by decide
  rw [hl] at hc
  simp only [Response.ok.injEq] at hc
  rw [← hc]
  exact ⟨rfl, rfl⟩

/-! ## Theorems: the name of a friend chat -/

theorem splitOnSpace_ne_nil : ∀ cs : List Char, splitOnSpace cs ≠ [] := by
  intro cs
  induction cs with
  | nil => simp [splitOnSpace]
  | cons c cs ih =>
    unfold splitOnSpace
    split
    · simp
    · split <;> simp

theorem splitOnSpace_of_no_space : ∀ w : List Char, ' ' ∉ w → splitOnSpace w = [w] := by
  intro w
  induction w with
  | nil => intro _; simp [splitOnSpace]
  | cons c cs ih =>
    intro h
    have hc : c ≠ ' ' := fun e => h (by simp [e])
    have hcs : ' ' ∉ cs := fun e => h (List.mem_cons_of_mem _ e)
    unfold splitOnSpace
    simp [hc, ih hcs]

theorem splitOnSpace_append_space :
    ∀ (w tail : List Char), ' ' ∉ w →
      splitOnSpace (w ++ ' ' :: tail) = w :: splitOnSpace tail := by
  intro w
  induction w with
  | nil => intro tail _; simp [splitOnSpace]
  | cons c cs ih =>
    intro tail h
    have hc : c ≠ ' ' := fun e => h (by simp [e])
    have hcs : ' ' ∉ cs := fun e => h (List.mem_cons_of_mem _ e)
    simp [splitOnSpace, hc, ih tail hcs]

theorem take_two_split_words (w1 w2 rest : List Char) (h1 : ' ' ∉ w1) (h2 : ' ' ∉ w2)
    (hrest : rest = [] ∨ rest.head? = some ' ') :
    ∃ more, splitOnSpace (w1 ++ ' ' :: w2 ++ rest) = w1 :: w2 :: more := by
  have e : w1 ++ ' ' :: w2 ++ rest = w1 ++ ' ' :: (w2 ++ rest) := by simp
  rw [e, splitOnSpace_append_space w1 _ h1]
  rcases hrest with h | h
  · subst h
    exact ⟨[], by simp [splitOnSpace_of_no_space w2 h2]⟩
  · cases rest with
    | nil => simp at h
    | cons c cs =>
      simp only [List.head?_cons, Option.some.injEq] at h
      subst h
      exact ⟨splitOnSpace cs, by rw [splitOnSpace_append_space w2 cs h2]⟩

theorem toList_ne_nil (m : String) (hm : m ≠ "") : m.toList ≠ [] := by
  intro h
  apply hm
  cases m with
  | mk data =>
    simp only [String.toList] at h
    subst h
    rfl

theorem createFriendChat_ok (messages : Ledger) (f t : String) (hf : f ≠ "") (ht : t ≠ "")
    (initialMessage conversationName : Option String) (cid ts : String) :
    createFriendChat messages (some f) (some t) initialMessage conversationName cid ts =
      (.ok (newFriendChat cid (friendChatName conversationName initialMessage) f t ts),
        messages ++ [newFriendChat cid (friendChatName conversationName initialMessage) f t ts]) := by
  simp [createFriendChat, hf, ht]

theorem splitSliceJoin_single (m : String) (h : ' ' ∉ m.toList) : splitSliceJoin m = m := by
  unfold splitSliceJoin
  rw [splitOnSpace_of_no_space _ h]
  simp [List.intercalate]

theorem firstTwoWords_single (m : String) (hm : m ≠ "") (h : ' ' ∉ m.toList) :
    firstTwoWords m = m := by
  have hne : m.data ≠ [] := toList_ne_nil m hm
  have he : m.data.isEmpty = false := by
    cases hd : m.data with
    | nil => exact absurd hd hne
    | cons c cs => rfl
  unfold firstTwoWords wordsOf
  rw [splitOnSpace_of_no_space _ h]
  simp [List.intercalate, List.filter, he]

theorem splitSliceJoin_two (m : String) (w1 w2 rest : List Char)
    (hm : m.toList = w1 ++ ' ' :: w2 ++ rest) (h1 : ' ' ∉ w1) (h2 : ' ' ∉ w2)
    (hrest : rest = [] ∨ rest.head? = some ' ') :
    splitSliceJoin m = String.mk (w1 ++ ' ' :: w2) := by
  obtain ⟨more, hs⟩ := take_two_split_words w1 w2 rest h1 h2 hrest
  unfold splitSliceJoin
  rw [hm, hs]
  simp [List.intercalate]

theorem firstTwoWords_two (m : String) (w1 w2 rest : List Char)
    (hm : m.toList = w1 ++ ' ' :: w2 ++ rest) (hw1 : w1 ≠ []) (hw2 : w2 ≠ [])
    (h1 : ' ' ∉ w1) (h2 : ' ' ∉ w2) (hrest : rest = [] ∨ rest.head? = some ' ') :
    firstTwoWords m = String.mk (w1 ++ ' ' :: w2) := by
  obtain ⟨more, hs⟩ := take_two_split_words w1 w2 rest h1 h2 hrest
  unfold firstTwoWords wordsOf
  rw [hm, hs]
  simp [List.intercalate, hw1, hw2]

/-- C10, as stated, fails: with the name omitted and the initial message
"hello  there" (two spaces) the descriptor is named "hello " (the first word, a space
and the empty piece between the two spaces), not "hello there". -/
theorem createFriendChat_name_counterexample :
    ¬ (∀ d, (createFriendChat [] (some "u1") (some "u2") (some "hello  there") none
          "c1" "t1").1 = .ok d →
        d.conversationName = some (firstTwoWords "hello  there")) := by
  intro h
  have h1 := h (newFriendChat "c1" (some "hello ") "u1" "u2" "t1") (by decide)
  revert h1
  decide

/-- C10, amended: with both user ids present, a given non-empty `conversationName` is
the descriptor's name; when it is omitted and `initialMessage` is non-empty, the name is
the first two pieces of `initialMessage` split at every single space character, joined
by one space (pieces may be empty); this is the whole message when it contains no space,
and the first two words joined by one space when the message starts with a word, one
space and a second word that ends the message or is followed by a space (so
"hello there" gives "hello there"); when both are omitted the name is "Friend Chat". -/
theorem createFriendChat_name_amended (messages : Ledger) (f t : String)
    (hf : f ≠ "") (ht : t ≠ "") (initialMessage conversationName : Option String)
    (cid ts : String) :
    ∃ d, createFriendChat messages (some f) (some t) initialMessage conversationName cid ts
        = (.ok d, messages ++ [d]) ∧
      (∀ n, conversationName = some n → n ≠ "" → d.conversationName = some n) ∧
      (truthy conversationName = false → ∀ m, initialMessage = some m → m ≠ "" →
        d.conversationName
          = some (String.mk ([' '].intercalate ((splitOnSpace m.toList).take 2))) ∧
        (' ' ∉ m.toList → d.conversationName = some m ∧ firstTwoWords m = m) ∧
        (∀ w1 w2 rest : List Char, m.toList = w1 ++ ' ' :: w2 ++ rest →
          w1 ≠ [] → w2 ≠ [] → ' ' ∉ w1 → ' ' ∉ w2 → (rest = [] ∨ rest.head? = some ' ') →
          d.conversationName = some (String.mk (w1 ++ ' ' :: w2)) ∧
          firstTwoWords m = String.mk (w1 ++ ' ' :: w2))) ∧
      (truthy conversationName = false → truthy initialMessage = false →
        d.conversationName = some "Friend Chat") ∧
      (truthy conversationName = false → initialMessage = some "hello there" →
        d.conversationName = some "hello there") := by
  refine ⟨_, createFriendChat_ok messages f t hf ht initialMessage conversationName cid ts,
    ?_, ?_, ?_, ?_⟩
  · intro n hn hne
    subst hn
    simp [newFriendChat, friendChatName, truthy, hne]
  · intro hcn m hm hne
    subst hm
    have hname : (newFriendChat cid (friendChatName conversationName (some m)) f t
        ts).conversationName = some (splitSliceJoin m) := by
      simp [newFriendChat, friendChatName, hcn, truthy_some m hne]
    refine ⟨hname, ?_, ?_⟩
    · intro hsp
      exact ⟨by rw [hname, splitSliceJoin_single m hsp], firstTwoWords_single m hne hsp⟩
    · intro w1 w2 rest hm hw1 hw2 h1 h2 hrest
      exact ⟨by rw [hname, splitSliceJoin_two m w1 w2 rest hm h1 h2 hrest],
        firstTwoWords_two m w1 w2 rest hm hw1 hw2 h1 h2 hrest⟩
  · intro hcn him
    simp [newFriendChat, friendChatName, hcn, him]
  · intro hcn him
    subst him
    have hsj : splitSliceJoin "hello there" = "hello there" := by decide
    have htm : truthy (some "hello there") = true := by decide
    simp [newFriendChat, friendChatName, hcn, htm, hsj]

theorem createFriendChat_name_amended_witness :
    "u1" ≠ "" ∧ "u2" ≠ "" ∧
    ∃ d, createFriendChat [] (some "u1") (some "u2") (some "hello there") none "c1" "t1"
        = (.ok d, [] ++ [d]) ∧
      d.conversationName = some "hello there" := by
  refine ⟨by decide, by decide, ?_⟩
  obtain ⟨d, hd, _, _, _, h⟩ := createFriendChat_name_amended [] "u1" "u2"
    (by decide) (by decide) (some "hello there") none "c1" "t1"
  exact ⟨d, hd, h rfl rfl⟩

/-! ## Theorems: round trip and append-only ledger -/

theorem truthy_iff (x : Option String) : truthy x = true ↔ ∃ s, x = some s ∧ s ≠ "" := by
  cases x with
  | none => simp [truthy]
  | some s => simp [truthy]

theorem listConversationMessages_ok (messages : Ledger) (c : String) (hc : c ≠ "") :
    listConversationMessages messages (some c) =
      .ok (messages.filter (fun msg =>
        msg.conversationId == some c || (truthy msg.fileUrl && msg.conversationId == some c)
          || msg.id == some c)) := by
  simp [listConversationMessages, truthy_some c hc]

/-- Appending a record that belongs to conversation `c` appends it to the listing. -/
theorem listConversationMessages_append (messages : Ledger) (c : String) (hc : c ≠ "")
    (r : LedgerRecord) (hr : r.conversationId = some c ∨ r.id = some c) :
    ∃ before, listConversationMessages messages (some c) = .ok before ∧
      listConversationMessages (messages ++ [r]) (some c) = .ok (before ++ [r]) ∧
      ((∀ x ∈ messages, x.id ≠ some c ∧ x.conversationId ≠ some c) → before = []) := by
  refine ⟨_, listConversationMessages_ok messages c hc, ?_, ?_⟩
  · rw [listConversationMessages_ok _ c hc, List.filter_append]
    congr 2
    rcases hr with h | h <;> simp [List.filter, h]
  · intro hnone
    rw [List.filter_eq_nil_iff]
    intro x hx
    have := hnone x hx
    simp [this.1, this.2]

/-- C11: round trip.  The record returned by `postMessage(from, c, text)` with valid
inputs is the last entry of `listConversationMessages(c)` on the resulting ledger, which
is the listing on the old ledger followed by that record; the descriptor appended by
`createBroadcastChat` or `createFriendChat` under the generated (non-empty) id `i` is the
last entry of `listConversationMessages(i)`, which is exactly `[d]` when no record of
the old ledger has `id` or `conversationId` equal to `i`. -/
theorem ledger_round_trip (L : Ledger) :
    (∀ (f text : Option String) (c newId ts : String),
      truthy f = true → c ≠ "" → truthy text = true →
      ∃ m before, postMessage L f (some c) text newId ts = (.ok m, L ++ [m]) ∧
        listConversationMessages L (some c) = .ok before ∧
        listConversationMessages (postMessage L f (some c) text newId ts).2 (some c)
          = .ok (before ++ [m])) ∧
    (∀ (name : Option String) (i ts : String), truthy name = true → i ≠ "" →
      ∃ d before, (createBroadcastChat L name i ts).2 = L ++ [d] ∧
        d = newChat i name ts ∧
        listConversationMessages L (some i) = .ok before ∧
        listConversationMessages (createBroadcastChat L name i ts).2 (some i)
          = .ok (before ++ [d]) ∧
        ((∀ x ∈ L, x.id ≠ some i ∧ x.conversationId ≠ some i) → before = [])) ∧
    (∀ (f t : String) (initialMessage name : Option String) (i ts : String),
      f ≠ "" → t ≠ "" → i ≠ "" →
      ∃ d before,
        createFriendChat L (some f) (some t) initialMessage name i ts = (.ok d, L ++ [d]) ∧
        listConversationMessages L (some i) = .ok before ∧
        listConversationMessages
            (createFriendChat L (some f) (some t) initialMessage name i ts).2 (some i)
          = .ok (before ++ [d]) ∧
        ((∀ x ∈ L, x.id ≠ some i ∧ x.conversationId ≠ some i) → before = [])) := by
  refine ⟨?_, ?_, ?_⟩
  · intro f text c newId ts hf hc ht
    have hp : postMessage L f (some c) text newId ts
        = (.ok (newMessage newId f (some c) text ts),
            L ++ [newMessage newId f (some c) text ts]) := by
      simp [postMessage, hf, ht, truthy_some c hc]
    obtain ⟨before, h1, h2, _⟩ := listConversationMessages_append L c hc
      (newMessage newId f (some c) text ts) (Or.inl rfl)
    exact ⟨_, before, hp, h1, by rw [hp]; exact h2⟩
  · intro name i ts hname hi
    have hp : (createBroadcastChat L name i ts).2 = L ++ [newChat i name ts] := by
      simp [createBroadcastChat, hname]
    obtain ⟨before, h1, h2, h3⟩ := listConversationMessages_append L i hi
      (newChat i name ts) (Or.inr rfl)
    exact ⟨_, before, hp, rfl, h1, by rw [hp]; exact h2, h3⟩
  · intro f t initialMessage name i ts hf ht hi
    have hp := createFriendChat_ok L f t hf ht initialMessage name i ts
    obtain ⟨before, h1, h2, h3⟩ := listConversationMessages_append L i hi
      (newFriendChat i (friendChatName name initialMessage) f t ts) (Or.inr rfl)
    exact ⟨_, before, hp, h1, by rw [hp]; exact h2, h3⟩

/-- C12: the ledger is append-only outside deletion.  Each of `postMessage`,
`postFileMessage`, `createBroadcastChat` and `createFriendChat` leaves the ledger `L`
itself (on failure) or `L` followed by exactly one new record, so every existing record
keeps its content and position; the result of `deleteConversation` is a subsequence of
`L`. -/
theorem ledger_append_only (L : Ledger) :
    (∀ (f c text : Option String) (newId ts : String),
      (∃ e, postMessage L f c text newId ts = (.fail e, L)) ∨
      (∃ m, postMessage L f c text newId ts = (.ok m, L ++ [m]))) ∧
    (∀ (pathJoin : String → String → String) (users : Registry)
        (c f t file : Option String) (newId ts : String),
      (∃ e, postFileMessage pathJoin users L c f t file newId ts = (.fail e, L)) ∨
      (∃ v r, postFileMessage pathJoin users L c f t file newId ts = (.ok v, L ++ [r]))) ∧
    (∀ (name : Option String) (i ts : String),
      (∃ e, createBroadcastChat L name i ts = (.fail e, L)) ∨
      (∃ v r, createBroadcastChat L name i ts = (.ok v, L ++ [r]))) ∧
    (∀ (f t initialMessage name : Option String) (i ts : String),
      (∃ e, createFriendChat L f t initialMessage name i ts = (.fail e, L)) ∨
      (∃ d, createFriendChat L f t initialMessage name i ts = (.ok d, L ++ [d]))) ∧
    (∀ c : Option String, (deleteConversation L c).2.Sublist L) := by
  refine ⟨?_, ?_, ?_, ?_, ?_⟩
  · intro f c text newId ts
    unfold postMessage
    split
    · exact Or.inl ⟨_, rfl⟩
    · exact Or.inr ⟨_, rfl⟩
  · intro pathJoin users c f t file newId ts
    unfold postFileMessage
    split
    · exact Or.inl ⟨_, rfl⟩
    · split
      · exact Or.inl ⟨_, rfl⟩
      · split
        · split
          · exact Or.inl ⟨_, rfl⟩
          · exact Or.inr ⟨_, _, rfl⟩
        · exact Or.inl ⟨_, rfl⟩
  · intro name i ts
    unfold createBroadcastChat
    split
    · exact Or.inl ⟨_, rfl⟩
    · exact Or.inr ⟨_, _, rfl⟩
  · intro f t initialMessage name i ts
    unfold createFriendChat
    split
    · split
      · exact Or.inl ⟨_, rfl⟩
      · exact Or.inr ⟨_, rfl⟩
    · exact Or.inl ⟨_, rfl⟩
  · intro c
    unfold deleteConversation
    split
    · exact List.Sublist.refl _
    · exact List.filter_sublist _

/-- C13: `postMessage` fails with the validation error, leaving the ledger unchanged,
exactly when one of the three inputs is missing or empty; otherwise it returns a record
carrying the three inputs, type "message" and the generated id and timestamp (non-empty
when the generated values are), and that record is the last entry of the new ledger. -/
theorem postMessage_validation (L : Ledger) (f c text : Option String) (newId ts : String) :
    ((postMessage L f c text newId ts).1 = .fail .validation ↔
      (truthy f = false ∨ truthy c = false ∨ truthy text = false)) ∧
    ((truthy f = false ∨ truthy c = false ∨ truthy text = false) →
      postMessage L f c text newId ts = (.fail .validation, L)) ∧
    (truthy f = true → truthy c = true → truthy text = true →
      ∃ m, postMessage L f c text newId ts = (.ok m, L ++ [m]) ∧
        m.fromUsername = f ∧ m.conversationId = c ∧ m.message = text ∧
        m.type = some "message" ∧ m.id = some newId ∧ m.timestamp = some ts ∧
        (newId ≠ "" → truthy m.id = true) ∧ (ts ≠ "" → truthy m.timestamp = true) ∧
        (postMessage L f c text newId ts).2.getLast? = some m) := by
  refine ⟨?_, ?_, ?_⟩
  · unfold postMessage
    cases hf : truthy f <;> cases hc : truthy c <;> cases ht : truthy text <;> simp
  · intro h
    unfold postMessage
    rcases h with h | h | h <;> simp [h]
  · intro hf hc ht
    refine ⟨newMessage newId f c text ts, ?_, rfl, rfl, rfl, rfl, rfl, rfl, ?_, ?_, ?_⟩
    · simp [postMessage, hf, hc, ht]
    · intro h; exact truthy_some newId h
    · intro h; exact truthy_some ts h
    · simp [postMessage, hf, hc, ht]

/-! ## Theorems: the friend list view -/

theorem listFriends_ok (users : Registry) (name : String) (U : User) (hname : name ≠ "")
    (hU : users.find? (fun u => u.username == name) = some U) :
    listFriends users (some name) = .ok (U.friends.map (friendView users)) := by
  simp [listFriends, hname, hU]

theorem orDefault_of_truthy (p d : String) (hp : p ≠ "") : orDefault (some p) d = p := by
  simp [orDefault, hp]

/-- C14, as stated, fails: a user whose username is the empty string exists (signup
accepts it), yet `listFriends` with that username fails with the validation error. -/
theorem listFriends_counterexample :
    ¬ (∀ U ∈ (signup [] "" "p0" "i0").2,
        ∃ views, listFriends (signup [] "" "p0" "i0").2 (some U.username) = .ok views) := by
  intro h
  obtain ⟨views, hv⟩ := h (newUser "i0" "" "p0") (by decide)
  have hl : listFriends (signup [] "" "p0" "i0").2 (some (newUser "i0" "" "p0").username)
      = .fail .validation := by decide
  rw [hl] at hv
  cases hv

/-- C14, amended: for a non-empty username of an existing user `U`, `listFriends`
returns one view per entry of `U.friends` in the same order; the view's username is the
entry, its profileImage is the profileImage of the first user of that name when that is
present and non-empty and "/images/default.png" when the friend is missing or has no
or an empty profileImage, and likewise its status with the default "online".  For a
non-empty username that no user has it fails with the not-found error; for a missing
or empty username it fails with the validation error. -/
theorem listFriends_amended (users : Registry) :
    (∀ (name : String) (U : User), name ≠ "" →
      users.find? (fun u => u.username == name) = some U →
      ∃ views, listFriends users (some name) = .ok views ∧
        views.map (fun v => v.username) = U.friends ∧
        ∀ v ∈ views,
          (∀ F p, users.find? (fun u => u.username == v.username) = some F →
            F.profileImage = some p → p ≠ "" → v.profileImage = p) ∧
          ((users.find? (fun u => u.username == v.username) = none ∨
            ∃ F, users.find? (fun u => u.username == v.username) = some F ∧
              (F.profileImage = none ∨ F.profileImage = some "")) →
            v.profileImage = "/images/default.png") ∧
          (∀ F p, users.find? (fun u => u.username == v.username) = some F →
            F.status = some p → p ≠ "" → v.status = p) ∧
          ((users.find? (fun u => u.username == v.username) = none ∨
            ∃ F, users.find? (fun u => u.username == v.username) = some F ∧
              (F.status = none ∨ F.status = some "")) →
            v.status = "online")) ∧
    (∀ name : String, name ≠ "" → (∀ x ∈ users, x.username ≠ name) →
      listFriends users (some name) = .fail .notFound) ∧
    listFriends users none = .fail .validation ∧
    listFriends users (some "") = .fail .validation := by
  refine ⟨?_, ?_, rfl, rfl⟩
  · intro name U hname hU
    refine ⟨_, listFriends_ok users name U hname hU, ?_, ?_⟩
    · rw [List.map_map]
      exact List.map_id _
    · intro v hv
      obtain ⟨n, _, hn⟩ := List.mem_map.1 hv
      subst hn
      refine ⟨?_, ?_, ?_, ?_⟩
      · intro F p hF hp hne
        have hF2 : users.find? (fun u => u.username == n) = some F := hF
        simp [friendView, hF2, hp, orDefault_of_truthy p _ hne]
      · intro h
        rcases h with h | ⟨F, hF, h | h⟩
        · have h2 : users.find? (fun u => u.username == n) = none := h
          simp [friendView, h2, orDefault]
        · have hF2 : users.find? (fun u => u.username == n) = some F := hF
          simp [friendView, hF2, h, orDefault]
        · have hF2 : users.find? (fun u => u.username == n) = some F := hF
          simp [friendView, hF2, h, orDefault]
      · intro F p hF hp hne
        have hF2 : users.find? (fun u => u.username == n) = some F := hF
        simp [friendView, hF2, hp, orDefault_of_truthy p _ hne]
      · intro h
        rcases h with h | ⟨F, hF, h | h⟩
        · have h2 : users.find? (fun u => u.username == n) = none := h
          simp [friendView, h2, orDefault]
        · have hF2 : users.find? (fun u => u.username == n) = some F := hF
          simp [friendView, hF2, h, orDefault]
        · have hF2 : users.find? (fun u => u.username == n) = some F := hF
          simp [friendView, hF2, h, orDefault]
  · intro name hname hnone
    have hf := find?_username_none users name hnone
    simp [listFriends, hname, hf]

/-! ## Theorems: change of password -/

theorem map_username_modify (users : Registry) (g : User → User) (n : Nat)
    (hg : ∀ x, (g x).username = x.username) :
    (users.modify g n).map (fun x => x.username) = users.map (fun x => x.username) := by
  apply List.ext_getElem?
  intro k
  simp only [List.getElem?_map, List.getElem?_modify]
  cases users[k]? with
  | none => rfl
  | some x =>
    by_cases h : n = k <;> simp [h, hg]

theorem login_response_of_find (users : Registry) (u pw : String) (x : User)
    (h : users.find? (matchesCredentials u pw) = some x) :
    (login users u pw).response = .ok (x.id, x.username) := by
  simp [login, h]

theorem login_of_find_none (users : Registry) (u pw : String)
    (h : users.find? (matchesCredentials u pw) = none) :
    login users u pw = { response := .fail .auth, needsSave := false, registry := users } := by
  simp [login, h]

/-- C15: `changePassword` fails with the not-found error when no user has the id and
with the auth error when the stored password of the user found differs from `old`,
leaving the registry unchanged in both cases; on success only the password of that user
changes, to `new`, and when usernames are pairwise distinct a following login with the
user's name and `new` succeeds while a login with `old` fails if `old` differs from
`new`. -/
theorem changePassword_spec (users : Registry) (userId old new : String) :
    ((∀ x ∈ users, x.id ≠ userId) →
      changePassword users userId old new = (.fail .notFound, users)) ∧
    (∀ user, users.find? (fun u => u.id == userId) = some user → user.password ≠ old →
      changePassword users userId old new = (.fail .auth, users)) ∧
    (∀ user, users.find? (fun u => u.id == userId) = some user → user.password = old →
      ∃ i : Nat, users[i]? = some user ∧
        (changePassword users userId old new).1 = .ok () ∧
        (changePassword users userId old new).2.length = users.length ∧
        (changePassword users userId old new).2[i]? = some { user with password := new } ∧
        (∀ k : Nat, k ≠ i → (changePassword users userId old new).2[k]? = users[k]?) ∧
        ((users.map (fun x => x.username)).Nodup →
          (login (changePassword users userId old new).2 user.username new).response
            = .ok (user.id, user.username) ∧
          (old ≠ new →
            (login (changePassword users userId old new).2 user.username old).response
              = .fail .auth))) := by
  refine ⟨?_, ?_, ?_⟩
  · intro h
    have hnone : users.find? (fun u => u.id == userId) = none := by
      simp only [List.find?_eq_none]
      intro x hx
      simpa using h x hx
    simp [changePassword, hnone]
  · intro user hfind hpw
    simp [changePassword, hfind, hpw]
  · intro user hfind hpw
    have hget := (find?_some_getElem?_findIdx _ users user hfind).1
    have hcp : changePassword users userId old new =
        (.ok (), users.modify (fun u => { u with password := new })
          (users.findIdx (fun u => u.id == userId))) := by
      simp [changePassword, hfind, hpw]
    rw [hcp]
    generalize hi : users.findIdx (fun u => u.id == userId) = i at *
    have hnew : (users.modify (fun u => { u with password := new }) i)[i]?
        = some { user with password := new } := by
      rw [List.getElem?_modify_eq, hget]; rfl
    refine ⟨i, hget, rfl, by simp, hnew, ?_, ?_⟩
    · intro k hk
      simp only
      rw [List.getElem?_modify_ne _ _ (Ne.symm hk)]
    · intro hnodup
      simp only
      have hnodup2 : ((users.modify (fun u => { u with password := new }) i).map
          (fun x => x.username)).Nodup := by
        rw [map_username_modify users (fun u => { u with password := new }) i (fun _ => rfl)]
        exact hnodup
      have hmem : ({ user with password := new } : User) ∈
          users.modify (fun u => { u with password := new }) i :=
        List.mem_iff_getElem?.2 ⟨i, hnew⟩
      have huniq : ∀ x ∈ users.modify (fun u => { u with password := new }) i,
          x.username = user.username → x = { user with password := new } := by
        intro x hx hxu
        exact List.inj_on_of_nodup_map hnodup2 hx hmem hxu
      constructor
      · cases hf : (users.modify (fun u => { u with password := new }) i).find?
            (matchesCredentials user.username new) with
        | none =>
          rw [List.find?_eq_none] at hf
          exact absurd (by simp [matchesCredentials]) (hf _ hmem)
        | some x =>
          have hx := List.find?_some hf
          have hxm := List.mem_of_find?_eq_some hf
          have hxu : x.username = user.username :=
            ((matchesCredentials_iff _ _ x).1 hx).1
          rw [login_response_of_find _ _ _ x hf, huniq x hxm hxu]
      · intro hne
        have hf : (users.modify (fun u => { u with password := new }) i).find?
            (matchesCredentials user.username old) = none := by
          rw [List.find?_eq_none]
          intro x hx hm
          have hxu := (matchesCredentials_iff _ _ x).1 hm
          have := huniq x hx hxu.1
          rw [this] at hxu
          exact hne hxu.2.symm
        rw [login_of_find_none _ _ _ hf]

/-! ## Theorems: login keeps friend lists duplicate-free and touches nothing else -/

theorem repairLoop_nodup (u : String) (i : Nat) :
    ∀ (l : List User) (j : Nat) (fr : List String) (ns : Bool),
      fr.Nodup → (repairLoop u i j l fr ns).1.Nodup := by
  intro l
  induction l with
  | nil => intro j fr ns h; simpa [repairLoop] using h
  | cons x rest ih =>
    intro j fr ns h
    by_cases hc : RepairFires u i j x fr
    · rw [repairLoop_cons_pos _ _ _ _ _ _ _ hc]
      apply ih
      exact List.Nodup.append h (List.nodup_singleton _) (by
        intro a ha hb
        have : a = x.username := by simpa using hb
        exact hc.2 (this ▸ ha))
    · rw [repairLoop_cons_neg _ _ _ _ _ _ _ hc]
      exact ih _ _ _ h

theorem login_preserves_nodup (users : Registry) (u pw : String)
    (h : ∀ x ∈ users, x.friends.Nodup) :
    ∀ x ∈ (login users u pw).registry, x.friends.Nodup := by
  cases hfind : users.find? (matchesCredentials u pw) with
  | none =>
    rw [login_of_find_none users u pw hfind]
    exact h
  | some user =>
    rw [login_of_find users u pw user hfind]
    intro x hx
    rcases mem_set_cases _ _ _ _ hx with hxe | ⟨k, _, hk⟩
    · subst hxe
      exact repairLoop_nodup u _ users 0 user.friends false
        (h user (List.mem_of_find?_eq_some hfind))
    · exact h x (List.mem_iff_getElem?.2 ⟨k, hk⟩)

/-- C16: login repair never produces duplicate entries.  When every friend list of the
registry is duplicate-free, every friend list is still duplicate-free after one login
and after a second login following it (for any credentials, successful or not). -/
theorem login_keeps_friends_nodup (users : Registry)
    (h : ∀ x ∈ users, x.friends.Nodup) (u pw u2 pw2 : String) :
    (∀ x ∈ (login users u pw).registry, x.friends.Nodup) ∧
    (∀ x ∈ (login (login users u pw).registry u2 pw2).registry, x.friends.Nodup) :=
  ⟨login_preserves_nodup users u pw h,
   login_preserves_nodup _ u2 pw2 (login_preserves_nodup users u pw h)⟩

theorem login_keeps_friends_nodup_witness :
    (∀ x ∈ ([⟨"1", "ann", "p", [], none, none⟩, ⟨"2", "bob", "q", ["ann"], none, none⟩] :
        Registry), x.friends.Nodup) ∧
    (∀ x ∈ (login [⟨"1", "ann", "p", [], none, none⟩, ⟨"2", "bob", "q", ["ann"], none, none⟩]
        "ann" "p").registry, x.friends.Nodup) ∧
    (∀ x ∈ (login (login [⟨"1", "ann", "p", [], none, none⟩,
        ⟨"2", "bob", "q", ["ann"], none, none⟩] "ann" "p").registry "ann" "p").registry,
      x.friends.Nodup) :=
  ⟨by decide,
   login_keeps_friends_nodup
     [⟨"1", "ann", "p", [], none, none⟩, ⟨"2", "bob", "q", ["ann"], none, none⟩]
     (by decide) "ann" "p" "ann" "p"⟩

/-- C17: login changes nothing but the friend list of the user who logs in.  After a
successful login the user found keeps position, id, username, password and the other
fields (only `friends` may differ) and every other record is unchanged; a failed login
(no user matches both fields) answers with the auth error and leaves the registry
unchanged. -/
theorem login_frame (users : Registry) (u pw : String) :
    (∀ user, users.find? (matchesCredentials u pw) = some user →
      ∃ (i : Nat) (fr : List String), users[i]? = some user ∧
        (login users u pw).registry.length = users.length ∧
        (login users u pw).registry[i]? = some { user with friends := fr } ∧
        ∀ k : Nat, k ≠ i → (login users u pw).registry[k]? = users[k]?) ∧
    ((∀ x ∈ users, ¬ (x.username = u ∧ x.password = pw)) →
      login users u pw = { response := .fail .auth, needsSave := false, registry := users }) := by
  constructor
  · intro user hfind
    have hget := (find?_some_getElem?_findIdx _ users user hfind).1
    have hlt : users.findIdx (matchesCredentials u pw) < users.length := by
      by_contra hge
      rw [List.getElem?_eq_none (by omega)] at hget
      simp at hget
    rw [login_of_find users u pw user hfind]
    refine ⟨users.findIdx (matchesCredentials u pw),
      (repairLoop u (users.findIdx (matchesCredentials u pw)) 0 users user.friends false).1,
      hget, by simp, ?_, ?_⟩
    · simp only
      rw [List.getElem?_set, if_pos rfl, if_pos hlt]
    · intro k hk
      simp only
      rw [List.getElem?_set_ne (Ne.symm hk)]
  · intro h
    apply login_of_find_none
    rw [List.find?_eq_none]
    intro x hx hm
    exact h x hx ((matchesCredentials_iff u pw x).1 hm)

/-! ## Theorems: what deletion keeps -/

/-- C18: for a non-empty id `c`, `deleteConversation(c)` keeps, unmodified and in their
original order, exactly the records whose `conversationId` and `id` both differ from
`c`; hence for every id `c2` such that no record of the ledger belongs to both `c` and
`c2` (by `id` or `conversationId`), `listConversationMessages(c2)` is the same before
and after the deletion. -/
theorem deleteConversation_frame (L : Ledger) (c : String) (hc : c ≠ "") :
    (deleteConversation L (some c)).2
      = L.filter (fun r => decide (r.conversationId ≠ some c ∧ r.id ≠ some c)) ∧
    (deleteConversation L (some c)).2.Sublist L ∧
    (∀ r, r ∈ (deleteConversation L (some c)).2 ↔
      r ∈ L ∧ r.conversationId ≠ some c ∧ r.id ≠ some c) ∧
    (∀ c2 : String,
      (∀ r ∈ L, ¬ ((r.conversationId = some c ∨ r.id = some c) ∧
        (r.conversationId = some c2 ∨ r.id = some c2))) →
      listConversationMessages (deleteConversation L (some c)).2 (some c2)
        = listConversationMessages L (some c2)) := by
  have hdel : (deleteConversation L (some c)).2 =
      L.filter (fun msg => msg.conversationId != some c && msg.id != some c) := by
    simp [deleteConversation, truthy_some c hc]
  rw [hdel]
  refine ⟨?_, List.filter_sublist _, ?_, ?_⟩
  · apply List.filter_congr
    intro x _
    by_cases h1 : x.conversationId = some c <;> by_cases h2 : x.id = some c <;> simp [h1, h2]
  · intro r
    simp [List.mem_filter]
  · intro c2 hdisj
    by_cases hc2 : c2 = ""
    · subst hc2
      rfl
    · rw [listConversationMessages_ok _ c2 hc2, listConversationMessages_ok _ c2 hc2,
        List.filter_filter]
      congr 1
      apply List.filter_congr
      intro x hx
      have hx2 := hdisj x hx
      by_cases h1 : x.conversationId = some c2 ∨ x.id = some c2
      · have hnot : ¬ (x.conversationId = some c ∨ x.id = some c) := fun h => hx2 ⟨h, h1⟩
        simp only [not_or] at hnot
        have hkeep : (x.conversationId != some c && x.id != some c) = true := by
          simp [hnot.1, hnot.2]
        rw [hkeep, Bool.and_true]
      · simp only [not_or] at h1
        simp [h1.1, h1.2]

theorem deleteConversation_frame_witness :
    "c1" ≠ "" ∧
    (deleteConversation
        [newChat "c1" (some "room") "t0",
         newMessage "m1" (some "ann") (some "c1") (some "hi") "t1",
         newMessage "m2" (some "ann") (some "c2") (some "yo") "t2"] (some "c1")).2
      = [newMessage "m2" (some "ann") (some "c2") (some "yo") "t2"] := by
  refine ⟨by decide, ?_⟩
  rw [(deleteConversation_frame
        [newChat "c1" (some "room") "t0",
         newMessage "m1" (some "ann") (some "c1") (some "hi") "t1",
         newMessage "m2" (some "ann") (some "c2") (some "yo") "t2"] "c1" (by decide)).1]
  decide

/-! ## Theorems: the invariant of reachable registries -/

theorem invariant_nil : RegistryInvariant [] := by
  refine ⟨by simp, ?_, ?_⟩
  · intro A hA; simp at hA
  · intro A hA; simp at hA

theorem signup_registry_cases (users : Registry) (u p i : String) :
    (signup users u p i).2 = users ∨
    ((∀ x ∈ users, x.username ≠ u) ∧ (signup users u p i).2 = users ++ [newUser i u p]) := by
  unfold signup
  split
  · exact Or.inl rfl
  · rename_i h
    right
    refine ⟨?_, rfl⟩
    intro x hx hxu
    apply h
    rw [List.find?_isSome]
    exact ⟨x, hx, by simpa using hxu⟩

theorem signup_preserves_invariant (users : Registry) (u p i : String)
    (h : RegistryInvariant users) : RegistryInvariant (signup users u p i).2 := by
  rcases signup_registry_cases users u p i with h1 | ⟨hfresh, h1⟩
  · rw [h1]; exact h
  · rw [h1]
    obtain ⟨hnd, hex, hsym⟩ := h
    have hnotin : ∀ A ∈ users, u ∉ A.friends := by
      intro A hA hu
      obtain ⟨B, hB, hBu⟩ := hex A hA u hu
      exact hfresh B hB hBu
    refine ⟨?_, ?_, ?_⟩
    · rw [List.map_append]
      apply List.Nodup.append hnd (by simp)
      intro a ha hb
      have hau : a = u := by simpa [newUser] using hb
      obtain ⟨x, hx, hxa⟩ := List.mem_map.1 ha
      exact hfresh x hx (hxa.trans hau)
    · intro A hA n hn
      rcases List.mem_append.1 hA with hA | hA
      · obtain ⟨B, hB, hBn⟩ := hex A hA n hn
        exact ⟨B, List.mem_append_left _ hB, hBn⟩
      · have hAe : A = newUser i u p := by simpa using hA
        subst hAe
        simp [newUser] at hn
    · intro A hA B hB
      rcases List.mem_append.1 hA with hA | hA <;> rcases List.mem_append.1 hB with hB | hB
      · exact hsym A hA B hB
      · have hBe : B = newUser i u p := by simpa using hB
        subst hBe
        have := hnotin A hA
        simp [newUser, this]
      · have hAe : A = newUser i u p := by simpa using hA
        subst hAe
        have := hnotin B hB
        simp [newUser, this]
      · have hAe : A = newUser i u p := by simpa using hA
        have hBe : B = newUser i u p := by simpa using hB
        subst hAe; subst hBe
        simp [newUser]

theorem login_preserves_invariant (users : Registry) (u pw : String)
    (h : RegistryInvariant users) : (login users u pw).registry = users := by
  cases hfind : users.find? (matchesCredentials u pw) with
  | none => rw [login_of_find_none users u pw hfind]
  | some user =>
    have hget := find?_some_getElem?_findIdx _ users user hfind
    have hname : user.username = u := ((matchesCredentials_iff u pw user).1 hget.2).1
    have hmem : user ∈ users := List.mem_of_find?_eq_some hfind
    have hnoop : repairLoop u (users.findIdx (matchesCredentials u pw)) 0 users
        user.friends false = (user.friends, false) := by
      apply repairLoop_noop
      · intro k o hk hki
        have hki2 : k = users.findIdx (matchesCredentials u pw) := by omega
        rw [hki2, hget.1] at hk
        simp only [Option.some.injEq] at hk
        rw [← hk]; exact hname
      · intro k o hk _ hu
        have ho : o ∈ users := List.mem_iff_getElem?.2 ⟨k, hk⟩
        exact (h.2.2 user hmem o ho).2 (hname ▸ hu)
    simp [login, hfind, hnoop]

theorem invariant_transfer (l1 l2 : Registry)
    (h12 : ∀ y ∈ l2, ∃ x ∈ l1, y.username = x.username ∧ y.friends = x.friends)
    (h21 : ∀ x ∈ l1, ∃ y ∈ l2, y.username = x.username)
    (hmap : l2.map (fun x => x.username) = l1.map (fun x => x.username))
    (h : RegistryInvariant l1) : RegistryInvariant l2 := by
  obtain ⟨hnd, hex, hsym⟩ := h
  refine ⟨hmap ▸ hnd, ?_, ?_⟩
  · intro A hA n hn
    obtain ⟨A1, hA1, _, hAf⟩ := h12 A hA
    obtain ⟨B1, hB1, hBn⟩ := hex A1 hA1 n (hAf ▸ hn)
    obtain ⟨B, hB, hBu⟩ := h21 B1 hB1
    exact ⟨B, hB, hBu.trans hBn⟩
  · intro A hA B hB
    obtain ⟨A1, hA1, hAu, hAf⟩ := h12 A hA
    obtain ⟨B1, hB1, hBu, hBf⟩ := h12 B hB
    rw [hAu, hAf, hBu, hBf]
    exact hsym A1 hA1 B1 hB1

theorem changePassword_preserves_invariant (users : Registry) (i o n : String)
    (h : RegistryInvariant users) : RegistryInvariant (changePassword users i o n).2 := by
  have hcases : (changePassword users i o n).2 = users ∨
      (changePassword users i o n).2 = users.modify (fun u => { u with password := n })
        (users.findIdx (fun u => u.id == i)) := by
    unfold changePassword
    split
    · exact Or.inl rfl
    · split
      · exact Or.inl rfl
      · exact Or.inr rfl
  rcases hcases with h1 | h1
  · rw [h1]; exact h
  · rw [h1]
    generalize users.findIdx (fun u => u.id == i) = k
    apply invariant_transfer users _ ?_ ?_ ?_ h
    · intro y hy
      obtain ⟨m, hm⟩ := List.mem_iff_getElem?.1 hy
      rw [List.getElem?_modify] at hm
      cases hx : users[m]? with
      | none => simp [hx] at hm
      | some x =>
        refine ⟨x, List.mem_iff_getElem?.2 ⟨m, hx⟩, ?_⟩
        by_cases hkm : k = m <;> simp [hx, hkm] at hm <;> subst hm <;> exact ⟨rfl, rfl⟩
    · intro x hx
      obtain ⟨m, hm⟩ := List.mem_iff_getElem?.1 hx
      by_cases hkm : k = m
      · refine ⟨{ x with password := n }, List.mem_iff_getElem?.2 ⟨m, ?_⟩, rfl⟩
        rw [List.getElem?_modify, hm]
        simp [hkm]
      · refine ⟨x, List.mem_iff_getElem?.2 ⟨m, ?_⟩, rfl⟩
        rw [List.getElem?_modify_ne _ _ hkm, hm]
    · exact map_username_modify users _ k (fun _ => rfl)

/-- With pairwise distinct usernames, mutating the user found under a name is
mutating every user of that name. -/
theorem modify_findIdx_eq_map (g : User → User) (n : String) :
    ∀ users : Registry, (users.map (fun x => x.username)).Nodup →
      users.modify g (users.findIdx (fun user => user.username == n))
        = users.map (fun x => if x.username = n then g x else x) := by
  intro users
  induction users with
  | nil => intro _; rfl
  | cons x xs ih =>
    intro hnd
    rw [List.map_cons, List.nodup_cons] at hnd
    by_cases hx : x.username = n
    · have hxs : ∀ y ∈ xs, y.username ≠ n := by
        intro y hy hyn
        exact hnd.1 (List.mem_map.2 ⟨y, hy, hyn.trans hx.symm⟩)
      have hid : xs.map (fun x => if x.username = n then g x else x) = xs := by
        conv_rhs => rw [← List.map_id xs]
        apply List.map_congr_left
        intro y hy
        simp [hxs y hy]
      simp [List.findIdx_cons, hx, List.modify, hid]
    · have hx2 : (x.username == n) = false := by simpa using hx
      simp [List.findIdx_cons, hx, hx2, ih hnd.2]

theorem sendFriendRequest_registry_cases (users : Registry) (f t : String) :
    (sendFriendRequest users f t).2 = users ∨
    ((∃ A ∈ users, A.username = f) ∧ (∃ B ∈ users, B.username = t) ∧
      (sendFriendRequest users f t).2 =
        (users.modify (pushFriend f)
          (users.findIdx (fun user => user.username == t))).modify (pushFriend t)
          (users.findIdx (fun user => user.username == f))) := by
  unfold sendFriendRequest
  cases hA : users.find? (fun user => user.username == f) with
  | none => exact Or.inl rfl
  | some A =>
    cases hB : users.find? (fun user => user.username == t) with
    | none => exact Or.inl rfl
    | some B =>
      simp only
      split
      · exact Or.inl rfl
      · right
        refine ⟨⟨A, List.mem_of_find?_eq_some hA, ?_⟩, ⟨B, List.mem_of_find?_eq_some hB, ?_⟩, rfl⟩
        · simpa using List.find?_some hA
        · simpa using List.find?_some hB

theorem afterRequest_username (f t : String) (x : User) :
    (afterRequest f t x).username = x.username := by
  unfold afterRequest
  simp only
  split_ifs <;> rfl

theorem afterRequest_friends (f t : String) (x : User) (n : String) :
    n ∈ (afterRequest f t x).friends ↔
      n ∈ x.friends ∨ (x.username = t ∧ n = f) ∨ (x.username = f ∧ n = t) := by
  unfold afterRequest
  simp only
  split_ifs with h1 h2 h2 <;>
    simp only [pushFriend, List.mem_append, List.mem_singleton] at * <;> tauto

theorem sendFriendRequest_eq_map (users : Registry) (f t : String)
    (hnd : (users.map (fun x => x.username)).Nodup) :
    (users.modify (pushFriend f)
        (users.findIdx (fun user => user.username == t))).modify (pushFriend t)
        (users.findIdx (fun user => user.username == f))
      = users.map (afterRequest f t) := by
  have hnd2 : ((users.modify (pushFriend f)
      (users.findIdx (fun user => user.username == t))).map (fun x => x.username)).Nodup := by
    rw [map_username_modify users (pushFriend f) _ (fun _ => rfl)]
    exact hnd
  rw [← findIdx_modify_of_invariant (fun user => user.username == f) (pushFriend f)
      (pushFriend_username f f) users (users.findIdx (fun user => user.username == t)),
    modify_findIdx_eq_map (pushFriend t) f _ hnd2,
    modify_findIdx_eq_map (pushFriend f) t users hnd, List.map_map]
  rfl

theorem sendFriendRequest_preserves_invariant (users : Registry) (f t : String)
    (h : RegistryInvariant users) : RegistryInvariant (sendFriendRequest users f t).2 := by
  rcases sendFriendRequest_registry_cases users f t with h1 | ⟨⟨A0, hA0, hA0f⟩, ⟨B0, hB0, hB0t⟩, h1⟩
  · rw [h1]; exact h
  · rw [h1, sendFriendRequest_eq_map users f t h.1]
    obtain ⟨hnd, hex, hsym⟩ := h
    have hmem : ∀ x ∈ users, afterRequest f t x ∈ users.map (afterRequest f t) :=
      fun x hx => List.mem_map.2 ⟨x, hx, rfl⟩
    refine ⟨?_, ?_, ?_⟩
    · rw [List.map_map]
      have : (fun x : User => x.username) ∘ afterRequest f t = fun x => x.username := by
        funext x
        exact afterRequest_username f t x
      rw [this]
      exact hnd
    · intro A' hA' n hn
      obtain ⟨A, hA, hAe⟩ := List.mem_map.1 hA'
      subst hAe
      rcases (afterRequest_friends f t A n).1 hn with hn | ⟨_, hn⟩ | ⟨_, hn⟩
      · obtain ⟨B, hB, hBn⟩ := hex A hA n hn
        exact ⟨_, hmem B hB, (afterRequest_username f t B).trans hBn⟩
      · exact ⟨_, hmem A0 hA0, (afterRequest_username f t A0).trans (hA0f.trans hn.symm)⟩
      · exact ⟨_, hmem B0 hB0, (afterRequest_username f t B0).trans (hB0t.trans hn.symm)⟩
    · intro A' hA' B' hB'
      obtain ⟨A, hA, hAe⟩ := List.mem_map.1 hA'
      obtain ⟨B, hB, hBe⟩ := List.mem_map.1 hB'
      subst hAe; subst hBe
      rw [afterRequest_username, afterRequest_username, afterRequest_friends,
        afterRequest_friends]
      have := hsym A hA B hB
      tauto

theorem applyOp_preserves_invariant (users : Registry) (op : RegistryOp)
    (h : RegistryInvariant users) : RegistryInvariant (applyOp users op) := by
  cases op with
  | signup u p i => exact signup_preserves_invariant users u p i h
  | login u p =>
    show RegistryInvariant (login users u p).registry
    rw [login_preserves_invariant users u p h]
    exact h
  | sendFriendRequest f t => exact sendFriendRequest_preserves_invariant users f t h
  | changePassword i o n => exact changePassword_preserves_invariant users i o n h

theorem foldl_applyOp_invariant (ops : List RegistryOp) :
    ∀ users : Registry, RegistryInvariant users → RegistryInvariant (ops.foldl applyOp users) := by
  induction ops with
  | nil => intro users h; exact h
  | cons op rest ih =>
    intro users h
    exact ih _ (applyOp_preserves_invariant users op h)

/-! ## Theorems: who sees a friend chat -/

theorem listUserConversations_buckets (messages : Ledger) (x : String) (chats : UserChats)
    (h : listUserConversations messages (some x) = .ok chats) (r : LedgerRecord) :
    (r ∈ chats.yourChats ↔ r ∈ messages ∧ isVisibleTo x r = true ∧ r.creator = some x) ∧
    (r ∈ chats.friendChats ↔ r ∈ messages ∧ isVisibleTo x r = true ∧ r.creator ≠ some x) := by
  have hx : x ≠ "" := by
    intro hx
    subst hx
    simp [listUserConversations] at h
  rw [listUserConversations_ok messages x hx] at h
  simp only [Response.ok.injEq] at h
  subst h
  constructor <;> simp only [List.mem_filter, beq_iff_eq, bne_iff_ne, ne_eq, and_assoc]

/-- C20: for non-empty user ids `f` and `t` the descriptor `d` appended by
`createFriendChat(f, t, ...)` has type "friend-chat", creator `f` and participants
`[f, t]`; on the resulting ledger `d` is in the created bucket of `f`, in the joined and
not the created bucket of `t` when `t` differs from `f`, and in neither bucket of any
other user; the records written by `postMessage` and `postFileMessage` are in neither
bucket of any user on any ledger. -/
theorem friendChat_visibility (L : Ledger) (f t : String) (hf : f ≠ "") (ht : t ≠ "")
    (initialMessage name : Option String) (i ts : String) :
    ∃ d, createFriendChat L (some f) (some t) initialMessage name i ts = (.ok d, L ++ [d]) ∧
      d.type = some "friend-chat" ∧ d.creator = some f ∧ d.participants = some [f, t] ∧
      (∃ chats, listUserConversations (L ++ [d]) (some f) = .ok chats ∧
        d ∈ chats.yourChats) ∧
      (t ≠ f → ∃ chats, listUserConversations (L ++ [d]) (some t) = .ok chats ∧
        d ∈ chats.friendChats ∧ d ∉ chats.yourChats) ∧
      (∀ x : String, x ≠ "" → x ≠ f → x ≠ t →
        ∃ chats, listUserConversations (L ++ [d]) (some x) = .ok chats ∧
          d ∉ chats.yourChats ∧ d ∉ chats.friendChats) ∧
      (∀ (L2 : Ledger) (x : String) (chats : UserChats),
        listUserConversations L2 (some x) = .ok chats →
        (∀ (mid : String) (fu c m : Option String) (mts : String),
          newMessage mid fu c m mts ∉ chats.yourChats ∧
          newMessage mid fu c m mts ∉ chats.friendChats) ∧
        (∀ (mid : String) (fu tu c : Option String) (url mts : String),
          newFileMessage mid fu tu c url mts ∉ chats.yourChats ∧
          newFileMessage mid fu tu c url mts ∉ chats.friendChats)) := by
  refine ⟨_, createFriendChat_ok L f t hf ht initialMessage name i ts, rfl, rfl, rfl,
    ?_, ?_, ?_, ?_⟩
  · refine ⟨_, listUserConversations_ok _ f hf, ?_⟩
    simp [List.mem_filter, isVisibleTo, newFriendChat]
  · intro htf
    refine ⟨_, listUserConversations_ok _ t ht, ?_, ?_⟩
    · simp [List.mem_filter, isVisibleTo, newFriendChat, Ne.symm htf]
    · simp [List.mem_filter, newFriendChat, Ne.symm htf]
  · intro x hx hxf hxt
    refine ⟨_, listUserConversations_ok _ x hx, ?_, ?_⟩
    · simp [List.mem_filter, newFriendChat, Ne.symm hxf]
    · simp [List.mem_filter, isVisibleTo, newFriendChat, Ne.symm hxf, hxf, hxt]
  · intro L2 x chats hchats
    constructor
    · intro mid fu c m mts
      have hb := listUserConversations_buckets L2 x chats hchats (newMessage mid fu c m mts)
      have hv : isVisibleTo x (newMessage mid fu c m mts) = false := by
        simp [isVisibleTo, newMessage]
      rw [hb.1, hb.2]
      simp [hv]
    · intro mid fu tu c url mts
      have hb := listUserConversations_buckets L2 x chats hchats
        (newFileMessage mid fu tu c url mts)
      have hv : isVisibleTo x (newFileMessage mid fu tu c url mts) = false := by
        simp [isVisibleTo, newFileMessage]
      rw [hb.1, hb.2]
      simp [hv]

theorem friendChat_visibility_witness :
    "u1" ≠ "" ∧ "u2" ≠ "" ∧
    ∃ d, createFriendChat [newChat "c0" (some "room") "t0"] (some "u1") (some "u2")
        (some "hello there") none "c1" "t1"
        = (.ok d, [newChat "c0" (some "room") "t0"] ++ [d]) ∧
      d.creator = some "u1" ∧ d.participants = some ["u1", "u2"] := by
  refine ⟨by decide, by decide, ?_⟩
  obtain ⟨d, hd, _, hc, hp, _⟩ := friendChat_visibility [newChat "c0" (some "room") "t0"]
    "u1" "u2" (by decide) (by decide) (some "hello there") none "c1" "t1"
  exact ⟨d, hd, hc, hp⟩

/-! ## Theorems: requests with missing fields -/

theorem findIdx_map {α β : Type} (f : α → β) (p : β → Bool) :
    ∀ l : List α, (l.map f).findIdx p = l.findIdx (fun x => p (f x)) := by
  intro l
  induction l with
  | nil => rfl
  | cons x xs ih => simp [List.findIdx_cons, ih]

theorem modify_map {α β : Type} (f : α → β) (g : β → β) (g2 : α → α)
    (h : ∀ x, g (f x) = f (g2 x)) :
    ∀ (l : List α) (n : Nat), (l.map f).modify g n = (l.modify g2 n).map f := by
  intro l
  induction l with
  | nil => intro n; cases n <;> rfl
  | cons x xs ih =>
    intro n
    cases n with
    | zero => simp [List.modify, h]
    | succ n => simp [ih n]

theorem find?_map_toRawUser (users : Registry) (n : String) :
    (users.map toRawUser).find? (fun user => user.username == some n)
      = (users.find? (fun user => user.username == n)).map toRawUser := by
  rw [List.find?_map]
  congr 2

theorem rawIncludes_toRawUser (x : User) (n : String) :
    rawIncludes (toRawUser x).friends (some n) = x.friends.contains n := by
  simp only [rawIncludes, toRawUser]
  rw [Bool.eq_iff_iff]
  simp

theorem rawPushFriend_toRawUser (n : String) (x : User) :
    rawPushFriend (some n) (toRawUser x) = toRawUser (pushFriend n x) := by
  simp [rawPushFriend, toRawUser, pushFriend, pushedEntry]

/-- On requests whose fields are strings `rawSignup` is `signup`. -/
theorem rawSignup_of_strings (users : Registry) (u p i : String) :
    rawSignup (users.map toRawUser) (some u) (some p) i
      = ((signup users u p i).1, (signup users u p i).2.map toRawUser) := by
  unfold rawSignup signup
  rw [find?_map_toRawUser]
  cases users.find? (fun user => user.username == u) with
  | none => simp [toRawUser, newUser]
  | some x => simp

/-- On requests whose fields are strings `rawSendFriendRequest` is `sendFriendRequest`. -/
theorem rawSendFriendRequest_of_strings (users : Registry) (f t : String) :
    rawSendFriendRequest (users.map toRawUser) (some f) (some t)
      = ((sendFriendRequest users f t).1, (sendFriendRequest users f t).2.map toRawUser) := by
  unfold rawSendFriendRequest sendFriendRequest
  rw [find?_map_toRawUser, find?_map_toRawUser]
  cases users.find? (fun user => user.username == f) with
  | none => rfl
  | some A =>
    cases users.find? (fun user => user.username == t) with
    | none => rfl
    | some B =>
      simp only [Option.map_some', rawIncludes_toRawUser]
      split
      · rfl
      · rw [findIdx_map, findIdx_map,
          modify_map toRawUser (rawPushFriend (some f)) (pushFriend f)
            (rawPushFriend_toRawUser f),
          modify_map toRawUser (rawPushFriend (some t)) (pushFriend t)
            (rawPushFriend_toRawUser t)]
        have e : ∀ n : String, (fun x : User => (toRawUser x).username == some n)
            = fun x => x.username == n := by
          intro n; funext x; simp [toRawUser]
        rw [e f, e t]

/-- C19, as stated, fails: `/signup` and `/friend-request` accept a missing username.
After signup without a username, signup of bob and a friend request from bob without
`toUsername`, the user without username lists bob while bob's list holds `null`, which
is the username of nobody. -/
theorem reachable_registry_invariant_counterexample :
    rawRunOps [.signup none (some "p") "i1", .signup (some "bob") (some "q") "i2",
        .sendFriendRequest (some "bob") none]
      = [⟨"i1", none, some "p", [.name "bob"], none, none⟩,
         ⟨"i2", some "bob", some "q", [.null], none, none⟩] ∧
    ¬ RawRegistryInvariant
      (rawRunOps [.signup none (some "p") "i1", .signup (some "bob") (some "q") "i2",
        .sendFriendRequest (some "bob") none]) := by
  have hrun : rawRunOps [.signup none (some "p") "i1", .signup (some "bob") (some "q") "i2",
        .sendFriendRequest (some "bob") none]
      = [⟨"i1", none, some "p", [.name "bob"], none, none⟩,
         ⟨"i2", some "bob", some "q", [.null], none, none⟩] := by decide
  refine ⟨hrun, ?_⟩
  rw [hrun]
  intro h
  obtain ⟨B, _, s, _, hs⟩ := h.2.1 ⟨"i2", some "bob", some "q", [.null], none, none⟩
    (by simp) .null (by simp)
  cases hs

/-- The typed invariant, read on the records with optional keys. -/
theorem rawInvariant_of_invariant (users : Registry) (h : RegistryInvariant users) :
    RawRegistryInvariant (users.map toRawUser) := by
  obtain ⟨hnd, hex, hsym⟩ := h
  refine ⟨?_, ?_, ?_⟩
  · rw [List.map_map]
    have e : (fun x : RawUser => x.username) ∘ toRawUser
        = (fun n : String => some n) ∘ fun x : User => x.username := by
      funext x; rfl
    rw [e, ← List.map_map]
    exact hnd.map (fun a b hab => Option.some.inj hab)
  · intro A' hA' e he
    obtain ⟨A, hA, hAe⟩ := List.mem_map.1 hA'
    subst hAe
    obtain ⟨n, hn, hne⟩ := List.mem_map.1 he
    obtain ⟨B, hB, hBn⟩ := hex A hA n hn
    exact ⟨toRawUser B, List.mem_map.2 ⟨B, hB, rfl⟩, n, by simp [toRawUser, hBn], hne.symm⟩
  · intro A' hA' B' hB'
    obtain ⟨A, hA, hAe⟩ := List.mem_map.1 hA'
    obtain ⟨B, hB, hBe⟩ := List.mem_map.1 hB'
    subst hAe; subst hBe
    have e1 : (toRawUser B).username = some B.username := rfl
    have e2 : (toRawUser A).username = some A.username := rfl
    rw [e1, e2, rawIncludes_toRawUser, rawIncludes_toRawUser]
    simpa using hsym A hA B hB

/-- C19, amended: starting from the empty registry, after any finite sequence of signup,
login, sendFriendRequest and changePassword requests whose fields are all present
strings (with any such values, successful or not) usernames are pairwise distinct,
every name in a friend list is the username of an existing user, and the friend
relation is symmetric; read on records with optional keys this is the invariant that
requests with missing fields break. -/
theorem reachable_registry_invariant (ops : List RegistryOp) :
    ((runOps ops).map (fun x => x.username)).Nodup ∧
    (∀ A ∈ runOps ops, ∀ n ∈ A.friends, ∃ B ∈ runOps ops, B.username = n) ∧
    (∀ A ∈ runOps ops, ∀ B ∈ runOps ops,
      B.username ∈ A.friends ↔ A.username ∈ B.friends) ∧
    RawRegistryInvariant ((runOps ops).map toRawUser) :=
  ⟨(foldl_applyOp_invariant ops [] invariant_nil).1,
   (foldl_applyOp_invariant ops [] invariant_nil).2.1,
   (foldl_applyOp_invariant ops [] invariant_nil).2.2,
   rawInvariant_of_invariant _ (foldl_applyOp_invariant ops [] invariant_nil)⟩

end ChatMessageSystem
